import Mathlib

/-!
# Vertex slices over GL vertex arrays

A shallow embedding of `framework/graphics/buffer/vertex.go`.

* Go's `int` is embedded as `Int`; `/` on `int` truncates toward zero and is embedded as
  `Int.tdiv`, with the run-time panic on a zero divisor made explicit.  The byte size
  `cap*va.stride` in `newVertexArray` and the new capacity in `grow` wrap around at 64 bits
  (`wrapInt`), and `make` panics on a negative size.  The offsets and lengths of slices over
  allocated stores stay inside the 64-bit range; the platform-dependent upper limit of `make` and
  memory exhaustion are not modelled.
* A Go panic is embedded as `Except.error`.
* The OpenGL context is an explicit state `GLState` that every operation threads through.  The data
  store of a buffer object is a sequence of 4-byte words and a `float32` is its 32-bit pattern; all
  byte offsets and sizes the code passes to GL are multiples of four for the supported attribute
  types.
* A `*vertexArray` is embedded by value: its fields are never assigned after `newVertexArray`
  returns, and its identity is carried by the GL names `vao` and `vbo`.
* The finalizer, `delete` and the attribute-pointer setup only touch state that none of the
  embedded operations reads, and are left out.
-/

namespace buffer

/-- The panics the embedded code can raise. -/
inductive Panic where
  /-- The message "failed to make vertex slice: len > cap". -/
  | lenGreaterThanCap
  /-- The message "failed to slice vertex slice: index out of range". -/
  | indexOutOfRange
  /-- The message "set vertex data: wrong length of vertices". -/
  | wrongLength
  /-- The message "failed to create vertex array: invalid attribute type". -/
  | invalidAttributeType
  /-- Go run-time error: integer divide by zero. -/
  | divideByZero
  /-- Go run-time error: makeslice: len out of range. -/
  | makesliceLen
  /-- A pop of an empty binding history. -/
  | emptyHistory
  deriving DecidableEq

/-- The value a Go `int` (64 bits, two's complement) holds after an operation whose exact result
is `x`. -/
def wrapInt (x : Int) : Int :=
  (x + 9223372036854775808) % 18446744073709551616 - 9223372036854775808

/-- A `float32`, as its 32-bit pattern. -/
abbrev float32 := Nat

/-! ## The shader package (attribute formats) -/

namespace shader

/-- Modelled from the spec: the attribute types of package `shader`, which is not part of the
sources at hand.  The supported kinds are the scalar and the 2-, 3- and 4-component vectors; every
other kind is `unsupported`, with its size in bytes. -/
inductive AttrType where
  | Float
  | Vec2
  | Vec3
  | Vec4
  | unsupported (size : Int)
  deriving DecidableEq

/-- Modelled from the spec: `AttrType.Size` of package `shader`, the size of an attribute in bytes
(a `Float` occupies one `float32`, a `Vec2` two, a `Vec3` three and a `Vec4` four). -/
def AttrType.Size : AttrType → Int
  | .Float => 4
  | .Vec2 => 8
  | .Vec3 => 12
  | .Vec4 => 16
  | .unsupported size => size

/-- An attribute: a name and a type. -/
structure Attr where
  Name : String
  Type_ : AttrType
  deriving DecidableEq

/-- An attribute format is an ordered sequence of attributes. -/
abbrev AttrFormat := List Attr

/-- Modelled from the spec: `AttrFormat.Size` of package `shader`, the total size in bytes. -/
def AttrFormat.Size : AttrFormat → Int
  | [] => 0
  | attr :: rest => attr.Type_.Size + AttrFormat.Size rest

/-- A shader program: its GL handle and its vertex format. -/
structure Shader where
  Handle : Nat
  vertexFormat : AttrFormat
  deriving DecidableEq

/-- The accessor `Shader.VertexFormat`. -/
def Shader.VertexFormat (s : Shader) : AttrFormat := s.vertexFormat

end shader

/-! ## The statistic package (counters) -/

/-- The counters of package `statistic` that the vertex array increments. -/
structure Statistic where
  VAOBinds : Int
  VBOBinds : Int
  VertexUpload : Int
  VerticesDrawn : Int
  DrawCalls : Int
  deriving DecidableEq

/-! ## The GL context -/

/-- The two binding points the vertex array uses. -/
inductive Binding where
  | VERTEX_ARRAY_BINDING
  | ARRAY_BUFFER_BINDING
  deriving DecidableEq

/-- The part of the GL context, and of the process-wide state of packages `history` and
`statistic`, that the vertex array reads or writes.  The buffer object named `n + 1` has its data
store at position `n` of `buffers`. -/
structure GLState where
  vertexArrayBinding : Nat
  arrayBufferBinding : Nat
  vertexArrays : Nat
  buffers : List (List float32)
  historyVAO : List Nat
  historyVBO : List Nat
  statistic : Statistic
  deriving DecidableEq

/-- The sequence `s` with the elements from position `a` on replaced by those of `d`. -/
def overwrite {α : Type} (s : List α) (a : Nat) (d : List α) : List α :=
  s.take a ++ d ++ s.drop (a + d.length)

namespace gl

/-- The call `gl.GetIntegerv(binding, &handle)`: the name bound at a binding point. -/
def GetIntegerv (g : GLState) : Binding → Nat
  | .VERTEX_ARRAY_BINDING => g.vertexArrayBinding
  | .ARRAY_BUFFER_BINDING => g.arrayBufferBinding

/-- The call `gl.GenVertexArrays(1, &vao)`: a name that was not in use. -/
def GenVertexArrays (g : GLState) : Nat × GLState :=
  (g.vertexArrays + 1, { g with vertexArrays := g.vertexArrays + 1 })

/-- The call `gl.BindVertexArray(handle)`. -/
def BindVertexArray (g : GLState) (handle : Nat) : GLState :=
  { g with vertexArrayBinding := handle }

/-- The call `gl.GenBuffers(1, &vbo)`: a name that was not in use, with an empty data store. -/
def GenBuffers (g : GLState) : Nat × GLState :=
  (g.buffers.length + 1, { g with buffers := g.buffers ++ [[]] })

/-- The call `gl.BindBuffer(gl.ARRAY_BUFFER, handle)`. -/
def BindBuffer (g : GLState) (handle : Nat) : GLState :=
  { g with arrayBufferBinding := handle }

/-- The data store of the buffer bound to `gl.ARRAY_BUFFER`, when there is one. -/
def boundStore (g : GLState) : Option (List float32) :=
  if g.arrayBufferBinding = 0 then none else g.buffers[g.arrayBufferBinding - 1]?

/-- The call `gl.BufferData(gl.ARRAY_BUFFER, size, zeros, gl.DYNAMIC_DRAW)` with `size` zero bytes:
the buffer bound to `gl.ARRAY_BUFFER` gets a fresh data store of `size` bytes.  Without a bound
buffer GL records an error and changes nothing. -/
def BufferData (g : GLState) (size : Int) : GLState :=
  match boundStore g with
  | none => g
  | some _ =>
    let store : List float32 := List.replicate (Int.tdiv size 4).toNat 0
    { g with buffers := g.buffers.set (g.arrayBufferBinding - 1) store }

/-- The call `gl.BufferSubData(gl.ARRAY_BUFFER, offset, size, data)`, where `data` holds `size`
bytes.  Without a bound buffer, or when the byte range leaves the data store, GL records an error
and changes nothing. -/
def BufferSubData (g : GLState) (offset size : Int) (data : List float32) : GLState :=
  match boundStore g with
  | none => g
  | some store =>
    if offset < 0 ∨ size < 0 ∨ offset + size > 4 * (store.length : Int) then g
    else
      let first := (Int.tdiv offset 4).toNat
      let count := (Int.tdiv size 4).toNat
      { g with buffers := g.buffers.set (g.arrayBufferBinding - 1)
                 (overwrite store first (data.take count)) }

/-- The call `gl.GetBufferSubData(gl.ARRAY_BUFFER, offset, size, data)`, where `data` has room for
`size` bytes: the contents of `data` afterwards.  Without a bound buffer, or when the byte range
leaves the data store, GL records an error and `data` keeps its contents. -/
def GetBufferSubData (g : GLState) (offset size : Int) (data : List float32) : List float32 :=
  match boundStore g with
  | none => data
  | some store =>
    if offset < 0 ∨ size < 0 ∨ offset + size > 4 * (store.length : Int) then data
    else
      let first := (Int.tdiv offset 4).toNat
      let count := (Int.tdiv size 4).toNat
      (store.drop first).take count

end gl

/-! ## The history package (binding stacks) -/

namespace history

/-- Modelled from the spec: `history.Push` of package `history`, which is not part of the sources
at hand.  It reads the name that is active at the binding point and pushes it on the stack of that
binding point. -/
def Push (g : GLState) : Binding → GLState
  | .VERTEX_ARRAY_BINDING =>
    { g with historyVAO := gl.GetIntegerv g .VERTEX_ARRAY_BINDING :: g.historyVAO }
  | .ARRAY_BUFFER_BINDING =>
    { g with historyVBO := gl.GetIntegerv g .ARRAY_BUFFER_BINDING :: g.historyVBO }

/-- Modelled from the spec: `history.Pop` of package `history`, which is not part of the sources
at hand.  It pops the most recently recorded name of the binding point and returns it.  The spec
leaves a pop of an empty stack undefined; here it is a failure. -/
def Pop (g : GLState) : Binding → Except Panic (Nat × GLState)
  | .VERTEX_ARRAY_BINDING =>
    match g.historyVAO with
    | [] => .error .emptyHistory
    | handle :: rest => .ok (handle, { g with historyVAO := rest })
  | .ARRAY_BUFFER_BINDING =>
    match g.historyVBO with
    | [] => .error .emptyHistory
    | handle :: rest => .ok (handle, { g with historyVBO := rest })

end history

namespace statistic

/-- The call `statistic.Increment(statistic.VAOBinds)`. -/
def IncrementVAOBinds (g : GLState) : GLState :=
  { g with statistic := { g.statistic with VAOBinds := g.statistic.VAOBinds + 1 } }

/-- The call `statistic.Increment(statistic.VBOBinds)`. -/
def IncrementVBOBinds (g : GLState) : GLState :=
  { g with statistic := { g.statistic with VBOBinds := g.statistic.VBOBinds + 1 } }

/-- The call `statistic.Add(statistic.VertexUpload, n)`. -/
def AddVertexUpload (g : GLState) (n : Int) : GLState :=
  { g with statistic := { g.statistic with VertexUpload := g.statistic.VertexUpload + n } }

end statistic

/-! ## The vertex array -/

/-- The struct `vertexArray`. -/
structure vertexArray where
  vao : Nat
  vbo : Nat
  cap : Int
  format : shader.AttrFormat
  stride : Int
  offset : List Int
  shader : shader.Shader
  deriving DecidableEq

/-- The constant `vertexArrayMinCap`. -/
def vertexArrayMinCap : Int := 4

/-- The first loop of `newVertexArray`: the byte offset of every attribute, starting from
`offset`, or `none` when an attribute has a type other than `Float`, `Vec2`, `Vec3`, `Vec4`. -/
def attrOffsets : shader.AttrFormat → Int → Option (List Int)
  | [], _ => some []
  | attr :: rest, offset =>
    match attr.Type_ with
    | .unsupported _ => none
    | _ => (attrOffsets rest (offset + attr.Type_.Size)).map (fun l => offset :: l)

namespace vertexArray

/-- The method `bindVAO`. -/
def bindVAO (va : vertexArray) (g : GLState) : GLState :=
  let g := history.Push g .VERTEX_ARRAY_BINDING
  let g := statistic.IncrementVAOBinds g
  gl.BindVertexArray g va.vao

/-- The method `unbindVAO`. -/
def unbindVAO (_va : vertexArray) (g : GLState) : Except Panic GLState :=
  match history.Pop g .VERTEX_ARRAY_BINDING with
  | .error e => .error e
  | .ok (handle, g) =>
    let g := if handle ≠ 0 then statistic.IncrementVAOBinds g else g
    .ok (gl.BindVertexArray g handle)

/-- The method `bindVBO`. -/
def bindVBO (va : vertexArray) (g : GLState) : GLState :=
  let g := history.Push g .ARRAY_BUFFER_BINDING
  let g := statistic.IncrementVBOBinds g
  gl.BindBuffer g va.vbo

/-- The method `unbindVBO`. -/
def unbindVBO (_va : vertexArray) (g : GLState) : Except Panic GLState :=
  match history.Pop g .ARRAY_BUFFER_BINDING with
  | .error e => .error e
  | .ok (handle, g) =>
    let g := if handle ≠ 0 then statistic.IncrementVBOBinds g else g
    .ok (gl.BindBuffer g handle)

/-- The method `begin`. -/
def begin (va : vertexArray) (g : GLState) : GLState :=
  va.bindVBO (va.bindVAO g)

/-- The method `beginDraw`. -/
def beginDraw (va : vertexArray) (g : GLState) : GLState :=
  va.bindVAO g

/-- The method `end`. -/
def end_ (va : vertexArray) (g : GLState) : Except Panic GLState :=
  match va.unbindVBO g with
  | .error e => .error e
  | .ok g => va.unbindVAO g

/-- The method `endDraw`. -/
def endDraw (va : vertexArray) (g : GLState) : Except Panic GLState :=
  va.unbindVAO g

/-- The method `draw`; the primitives go to the framebuffer, which is not part of the state. -/
def draw (_va : vertexArray) (g : GLState) (i j : Int) : GLState :=
  { g with statistic :=
      { g.statistic with
        VerticesDrawn := g.statistic.VerticesDrawn + (j - i)
        DrawCalls := g.statistic.DrawCalls + 1 } }

/-- The method `setVertexData`. -/
def setVertexData (va : vertexArray) (g : GLState) (i j : Int) (data : List float32) :
    Except Panic GLState :=
  if j - i = 0 then .ok g
  else if Int.tdiv va.stride 4 = 0 then .error .divideByZero
  else
    let g := statistic.AddVertexUpload g (Int.tdiv (data.length : Int) (Int.tdiv va.stride 4))
    .ok (gl.BufferSubData g (i * va.stride) ((data.length : Int) * 4) data)

/-- The method `vertexData`. -/
def vertexData (va : vertexArray) (g : GLState) (i j : Int) : Except Panic (List float32) :=
  if j - i = 0 then .ok []
  else if Int.tdiv ((j - i) * va.stride) 4 < 0 then .error .makesliceLen
  else
    let data : List float32 := List.replicate (Int.tdiv ((j - i) * va.stride) 4).toNat 0
    .ok (gl.GetBufferSubData g (i * va.stride) ((data.length : Int) * 4) data)

end vertexArray

/-- The function `newVertexArray`.  The size `cap*va.stride` handed to `make` is a Go `int`
product, which wraps around, and `make` panics when it is negative. -/
def newVertexArray (g : GLState) (shdr : shader.Shader) (cap : Int) :
    Except Panic (vertexArray × GLState) :=
  let cap := if cap < vertexArrayMinCap then vertexArrayMinCap else cap
  match attrOffsets shdr.VertexFormat 0 with
  | none => .error .invalidAttributeType
  | some offset =>
    let (vao, g) := gl.GenVertexArrays g
    let va : vertexArray :=
      { vao := vao, vbo := 0, cap := cap, format := shdr.VertexFormat,
        stride := shader.AttrFormat.Size shdr.VertexFormat, offset := offset, shader := shdr }
    let g := va.bindVAO g
    let (vbo, g) := gl.GenBuffers g
    let va : vertexArray := { va with vbo := vbo }
    let g := va.bindVBO g
    let size := wrapInt (cap * va.stride)
    if size < 0 then .error .makesliceLen
    else
      let g := gl.BufferData g size
      match va.unbindVBO g with
      | .error e => .error e
      | .ok g =>
        match va.unbindVAO g with
        | .error e => .error e
        | .ok g => .ok (va, g)

/-! ## The vertex slice -/

/-- The struct `VertexSlice`. -/
structure VertexSlice where
  va : vertexArray
  i : Int
  j : Int
  deriving DecidableEq

/-- The function `MakeVertexSlice`. -/
def MakeVertexSlice (g : GLState) (shader : shader.Shader) (len cap : Int) :
    Except Panic (VertexSlice × GLState) :=
  if len > cap then .error .lenGreaterThanCap
  else
    match newVertexArray g shader cap with
    | .error e => .error e
    | .ok (va, g) => .ok ({ va := va, i := 0, j := len }, g)

namespace VertexSlice

/-- The method `VertexFormat`. -/
def VertexFormat (vs : VertexSlice) : shader.AttrFormat := vs.va.format

/-- The method `Stride`. -/
def Stride (vs : VertexSlice) : Int := Int.tdiv vs.va.stride 4

/-- The method `Len`. -/
def Len (vs : VertexSlice) : Int := vs.j - vs.i

/-- The method `Cap`. -/
def Cap (vs : VertexSlice) : Int := vs.va.cap - vs.i

/-- The method `Slice`. -/
def Slice (vs : VertexSlice) (i j : Int) : Except Panic VertexSlice :=
  if i < 0 ∨ j < i ∨ j > vs.va.cap then .error .indexOutOfRange
  else .ok { va := vs.va, i := vs.i + i, j := vs.i + j }

/-- The method `SetVertexData`. -/
def SetVertexData (vs : VertexSlice) (g : GLState) (data : List float32) : Except Panic GLState :=
  if vs.Stride = 0 then .error .divideByZero
  else if Int.tdiv (data.length : Int) vs.Stride ≠ vs.Len then .error .wrongLength
  else vs.va.setVertexData g vs.i vs.j data

/-- The method `VertexData`. -/
def VertexData (vs : VertexSlice) (g : GLState) : Except Panic (List float32) :=
  vs.va.vertexData g vs.i vs.j

/-- The method `Draw`. -/
def Draw (vs : VertexSlice) (g : GLState) : GLState := vs.va.draw g vs.i vs.j

/-- The method `Begin`. -/
def Begin (vs : VertexSlice) (g : GLState) : GLState := vs.va.begin g

/-- The method `BeginDraw`. -/
def BeginDraw (vs : VertexSlice) (g : GLState) : GLState := vs.va.beginDraw g

/-- The method `End`. -/
def End (vs : VertexSlice) (g : GLState) : Except Panic GLState := vs.va.end_ g

/-- The method `EndDraw`. -/
def EndDraw (vs : VertexSlice) (g : GLState) : Except Panic GLState := vs.va.endDraw g

/-- The capacity `grow` asks for when the remaining capacity `cap` is too small for `len`; the
two sums are Go `int` additions and wrap around. -/
def growCap (cap len : Int) : Int :=
  let newCap := cap
  let newCap :=
    if newCap < 1024 then wrapInt (newCap + newCap) else wrapInt (newCap + Int.tdiv newCap 4)
  if newCap < len then len else newCap

/-- The method `grow`. -/
def grow (vs : VertexSlice) (g : GLState) (len : Int) : Except Panic (VertexSlice × GLState) :=
  if len ≤ vs.Cap then
    .ok ({ va := vs.va, i := vs.i, j := vs.i + len }, g)
  else
    match newVertexArray g vs.va.shader (growCap vs.Cap len) with
    | .error e => .error e
    | .ok (va, g) =>
      let newVs : VertexSlice := { va := va, i := 0, j := len }
      let g := newVs.Begin g
      match newVs.Slice 0 vs.Len with
      | .error e => .error e
      | .ok dst =>
        match vs.VertexData g with
        | .error e => .error e
        | .ok data =>
          match dst.SetVertexData g data with
          | .error e => .error e
          | .ok g =>
            match newVs.End g with
            | .error e => .error e
            | .ok g => .ok (newVs, g)

/-- The method `SetLen`; the slice it returns is the new value of the receiver. -/
def SetLen (vs : VertexSlice) (g : GLState) (len : Int) : Except Panic (VertexSlice × GLState) :=
  match vs.End g with
  | .error e => .error e
  | .ok g =>
    match vs.grow g len with
    | .error e => .error e
    | .ok (vs, g) => .ok (vs, vs.Begin g)

end VertexSlice

/-! ## Sequences of binding calls -/

/-- A call of one of the methods that bind or unbind the vertex array of a slice. -/
inductive Call where
  | Begin (vs : VertexSlice)
  | End (vs : VertexSlice)
  | BeginDraw (vs : VertexSlice)
  | EndDraw (vs : VertexSlice)
  | SetLen (vs : VertexSlice) (len : Int)

/-- The effect of one call on the context. -/
def Call.run (g : GLState) : Call → Except Panic GLState
  | .Begin vs => .ok (vs.Begin g)
  | .End vs => vs.End g
  | .BeginDraw vs => .ok (vs.BeginDraw g)
  | .EndDraw vs => vs.EndDraw g
  | .SetLen vs len =>
    match vs.SetLen g len with
    | .error e => .error e
    | .ok (_, g) => .ok g

/-- The effect of a sequence of calls, in order; a panic ends the sequence. -/
def runCalls (g : GLState) : List Call → Except Panic GLState
  | [] => .ok g
  | c :: cs =>
    match c.run g with
    | .error e => .error e
    | .ok g => runCalls g cs

/-- Well-nested sequences of calls.  Every `Begin` is closed by an `End` and every `BeginDraw` by
an `EndDraw`, with a well-nested sequence in between.  The flag says whether the sequence stands
inside a `Begin`/`End` pair; `SetLen`, which requires its slice to have been `Begin`-ed, occurs
only there. -/
inductive Nested : Bool → List Call → Prop where
  | nil (b : Bool) : Nested b []
  | resize (vs : VertexSlice) (len : Int) (rest : List Call) :
      Nested true rest → Nested true (.SetLen vs len :: rest)
  | scope (b : Bool) (v w : VertexSlice) (body rest : List Call) :
      Nested true body → Nested b rest → Nested b (.Begin v :: (body ++ .End w :: rest))
  | drawScope (b : Bool) (v w : VertexSlice) (body rest : List Call) :
      Nested b body → Nested b rest → Nested b (.BeginDraw v :: (body ++ .EndDraw w :: rest))

/-- The active name and the history stack of both binding points. -/
def bindings (g : GLState) : Nat × Nat × List Nat × List Nat :=
  (g.vertexArrayBinding, g.arrayBufferBinding, g.historyVAO, g.historyVBO)

/-! ## Well-formedness -/

/-- The attribute types `newVertexArray` accepts. -/
def shader.AttrType.supported : shader.AttrType → Bool
  | .unsupported _ => false
  | _ => true

/-- Every attribute of the format has a type `newVertexArray` accepts. -/
def Supported (f : shader.AttrFormat) : Prop := ∀ a ∈ f, a.Type_.supported = true

instance (f : shader.AttrFormat) : Decidable (Supported f) := by
  unfold Supported; infer_instance

/-- The vertex array has the shape `newVertexArray` gives it: format and stride are those of its
shader, and the format is supported. -/
def vertexArray.WellFormed (va : vertexArray) : Prop :=
  va.format = va.shader.VertexFormat ∧ va.stride = shader.AttrFormat.Size va.shader.VertexFormat ∧
    Supported va.shader.VertexFormat

instance (va : vertexArray) : Decidable va.WellFormed := by
  unfold vertexArray.WellFormed; infer_instance

/-- The view invariant of the spec: `0 ≤ i ≤ j ≤ store.capacity`. -/
def VertexSlice.Inv (vs : VertexSlice) : Prop := 0 ≤ vs.i ∧ vs.i ≤ vs.j ∧ vs.j ≤ vs.va.cap

instance (vs : VertexSlice) : Decidable vs.Inv := by
  unfold VertexSlice.Inv; infer_instance

/-- The buffer object of the vertex array exists in the context and its data store holds `cap`
vertices. -/
def Live (g : GLState) (va : vertexArray) : Prop :=
  va.vbo ≠ 0 ∧
    (g.buffers[va.vbo - 1]?).map (fun store => (store.length : Int)) =
      some (va.cap * Int.tdiv va.stride 4)

instance (g : GLState) (va : vertexArray) : Decidable (Live g va) := by
  unfold Live; infer_instance

/-- The slice can be resized: its vertex array is well formed, it satisfies the view invariant,
and a vertex occupies at least one `float32`. -/
def Resizable (vs : VertexSlice) : Prop := vs.va.WellFormed ∧ vs.Inv ∧ vs.Stride ≠ 0

instance (vs : VertexSlice) : Decidable (Resizable vs) := by
  unfold Resizable; infer_instance

/-- The store that `SetLen(len)` allocates when it has to grow the slice fits a Go `int`: its
capacity `max(4, newCap)`, with `newCap` the doubled (below 1024) or 1.25-fold remaining capacity
or `len` if that is larger, times the stride in bytes, is below `2^63`. -/
def GrowthFits (vs : VertexSlice) (len : Int) : Prop :=
  max 4 (max len (if vs.Cap < 1024 then 2 * vs.Cap else vs.Cap + vs.Cap / 4)) * vs.va.stride <
    9223372036854775808

instance (vs : VertexSlice) (len : Int) : Decidable (GrowthFits vs len) := by
  unfold GrowthFits; infer_instance

/-- The slice has been `Begin`-ed and not yet `End`-ed: its vertex array and its buffer are the
active bindings and both binding histories hold the bindings to restore. -/
def Entered (g : GLState) (vs : VertexSlice) : Prop :=
  g.vertexArrayBinding = vs.va.vao ∧ g.arrayBufferBinding = vs.va.vbo ∧
    g.historyVAO ≠ [] ∧ g.historyVBO ≠ []

instance (g : GLState) (vs : VertexSlice) : Decidable (Entered g vs) := by
  unfold Entered; infer_instance

/-- The data store of the buffer object of a vertex array (empty when there is none). -/
def storeOf (g : GLState) (va : vertexArray) : List float32 :=
  (g.buffers[va.vbo - 1]?).getD []

/-! ## Concrete inputs -/

/-- A shader with a single `Float` attribute. -/
def floatShader : shader.Shader :=
  { Handle := 1, vertexFormat := [{ Name := "in_value", Type_ := .Float }] }

/-- A shader with a single `Vec2` attribute. -/
def vec2Shader : shader.Shader :=
  { Handle := 2, vertexFormat := [{ Name := "in_position", Type_ := .Vec2 }] }

/-- A context in which nothing is bound and nothing has been allocated. -/
def emptyContext : GLState :=
  { vertexArrayBinding := 0, arrayBufferBinding := 0, vertexArrays := 0, buffers := [],
    historyVAO := [], historyVBO := [], statistic := ⟨0, 0, 0, 0, 0⟩ }

/-- A slice of length 2 over a vertex array of capacity 4 for the single-`Float` shader. -/
def exampleSlice : VertexSlice :=
  { va := { vao := 1, vbo := 1, cap := 4, format := floatShader.VertexFormat, stride := 4,
            offset := [0], shader := floatShader },
    i := 0, j := 2 }

/-- The context after `MakeVertexSlice(floatShader, 2, 4)` in the empty context. -/
def exampleMade : GLState :=
  { vertexArrayBinding := 0, arrayBufferBinding := 0, vertexArrays := 1, buffers := [[0, 0, 0, 0]],
    historyVAO := [], historyVBO := [], statistic := ⟨1, 1, 0, 0, 0⟩ }

/-- The context after `Begin()` on `exampleSlice` in `exampleMade`. -/
def exampleEntered : GLState :=
  { vertexArrayBinding := 1, arrayBufferBinding := 1, vertexArrays := 1, buffers := [[0, 0, 0, 0]],
    historyVAO := [0], historyVBO := [0], statistic := ⟨2, 2, 0, 0, 0⟩ }

/-! ## Arithmetic of strides -/

theorem attrOffsets_of_supported (f : shader.AttrFormat) (h : Supported f) (o : Int) :
    ∃ l, attrOffsets f o = some l := by
  induction f generalizing o with
  | nil => exact ⟨[], rfl⟩
  | cons a rest ih =>
    have ha : a.Type_.supported = true := h a (List.mem_cons_self _ _)
    have hr : Supported rest := fun b hb => h b (List.mem_cons_of_mem _ hb)
    obtain ⟨l, hl⟩ := ih hr (o + a.Type_.Size)
    cases hT : a.Type_ with
    | unsupported s => rw [hT] at ha; simp [shader.AttrType.supported] at ha
    | Float => rw [hT] at hl; exact ⟨o :: l, by simp [attrOffsets, hT, hl]⟩
    | Vec2 => rw [hT] at hl; exact ⟨o :: l, by simp [attrOffsets, hT, hl]⟩
    | Vec3 => rw [hT] at hl; exact ⟨o :: l, by simp [attrOffsets, hT, hl]⟩
    | Vec4 => rw [hT] at hl; exact ⟨o :: l, by simp [attrOffsets, hT, hl]⟩

theorem size_of_supported (f : shader.AttrFormat) (h : Supported f) :
    ∃ k : Nat, shader.AttrFormat.Size f = 4 * (k : Int) ∧ (f ≠ [] → 0 < k) := by
  induction f with
  | nil => exact ⟨0, by simp [shader.AttrFormat.Size]⟩
  | cons a rest ih =>
    have ha : a.Type_.supported = true := h a (List.mem_cons_self _ _)
    have hr : Supported rest := fun b hb => h b (List.mem_cons_of_mem _ hb)
    obtain ⟨k, hk, _⟩ := ih hr
    cases hT : a.Type_ with
    | unsupported s => rw [hT] at ha; simp [shader.AttrType.supported] at ha
    | Float =>
      exact ⟨k + 1, by simp [shader.AttrFormat.Size, shader.AttrType.Size, hT, hk]; ring,
        fun _ => Nat.succ_pos _⟩
    | Vec2 =>
      exact ⟨k + 2, by simp [shader.AttrFormat.Size, shader.AttrType.Size, hT, hk]; ring,
        fun _ => Nat.succ_pos _⟩
    | Vec3 =>
      exact ⟨k + 3, by simp [shader.AttrFormat.Size, shader.AttrType.Size, hT, hk]; ring,
        fun _ => Nat.succ_pos _⟩
    | Vec4 =>
      exact ⟨k + 4, by simp [shader.AttrFormat.Size, shader.AttrType.Size, hT, hk]; ring,
        fun _ => Nat.succ_pos _⟩

theorem tdiv_four_mul (k : Int) : Int.tdiv (4 * k) 4 = k :=
  Int.mul_tdiv_cancel_left k (by decide)

theorem words_eq (a k : Nat) : (Int.tdiv ((a : Int) * (4 * (k : Int))) 4).toNat = a * k := by
  have : (a : Int) * (4 * (k : Int)) = 4 * ((a * k : Nat) : Int) := by push_cast; ring
  rw [this, tdiv_four_mul, Int.toNat_ofNat]

/-! ## Overwriting a range of a sequence -/

theorem length_overwrite {α : Type} (s d : List α) (a : Nat) (h : a + d.length ≤ s.length) :
    (overwrite s a d).length = s.length := by
  simp [overwrite]; omega

theorem getElem?_overwrite {α : Type} (s d : List α) (a p : Nat) (h : a + d.length ≤ s.length) :
    (overwrite s a d)[p]? =
      if p < a then s[p]? else if p < a + d.length then d[p - a]? else s[p]? := by
  have hl : (s.take a).length = a := by simp; omega
  unfold overwrite
  by_cases h1 : p < a
  · rw [if_pos h1, List.append_assoc, List.getElem?_append_left (by omega),
      List.getElem?_take_of_lt h1]
  · rw [if_neg h1, List.append_assoc, List.getElem?_append_right (by omega), hl]
    by_cases h2 : p < a + d.length
    · rw [if_pos h2, List.getElem?_append_left (by omega)]
    · rw [if_neg h2, List.getElem?_append_right (by omega), List.getElem?_drop]
      congr 1; omega

theorem window_overwrite {α : Type} (s d : List α) (a : Nat) (h : a + d.length ≤ s.length) :
    ((overwrite s a d).drop a).take d.length = d := by
  apply List.ext_getElem?
  intro p
  rw [List.getElem?_take, List.getElem?_drop, getElem?_overwrite s d a (a + p) h]
  by_cases hp : p < d.length
  · simp [hp]
  · simp [hp]; omega

theorem outer_window_overwrite {α : Type} (s d : List α) (a b m : Nat)
    (hab : b ≤ a) (ham : a + d.length ≤ b + m) (h : b + m ≤ s.length) :
    ((overwrite s a d).drop b).take m = overwrite ((s.drop b).take m) (a - b) d := by
  have hw : ((s.drop b).take m).length = m := by simp; omega
  apply List.ext_getElem?
  intro p
  rw [List.getElem?_take, List.getElem?_drop, getElem?_overwrite s d a (b + p) (by omega),
    getElem?_overwrite _ d (a - b) p (by omega), List.getElem?_take, List.getElem?_drop]
  by_cases hp : p < m
  · simp only [hp, if_true]
    by_cases h1 : b + p < a
    · simp [h1, show p < a - b by omega]
    · by_cases h2 : b + p < a + d.length
      · simp [h1, h2, show ¬ p < a - b by omega, show p < a - b + d.length by omega]
        congr 1; omega
      · simp [h1, h2, show ¬ p < a - b by omega, show ¬ p < a - b + d.length by omega]
  · simp only [hp, if_false]
    simp [show ¬ p < a - b by omega, show ¬ p < a - b + d.length by omega]

theorem overwrite_replicate {α : Type} (x : α) (n a c : Nat) (h : a + c ≤ n) :
    overwrite (List.replicate n x) a (List.replicate c x) = List.replicate n x := by
  apply List.ext_getElem?
  intro p
  rw [getElem?_overwrite _ _ _ _ (by simpa using h)]
  simp only [List.getElem?_replicate, List.length_replicate]
  by_cases h1 : p < a
  · simp [h1]
  · by_cases h2 : p < a + c
    · simp [h1, h2, show p - a < c by omega, show p < n by omega]
    · simp [h1, h2]

/-! ## The bind and unbind steps -/

theorem wrapInt_of_fits (x : Int) (h0 : -9223372036854775808 ≤ x)
    (h1 : x < 9223372036854775808) : wrapInt x = x := by
  unfold wrapInt; omega

theorem size_nonneg (f : shader.AttrFormat) (h : Supported f) :
    0 ≤ shader.AttrFormat.Size f := by
  obtain ⟨k, hk, _⟩ := size_of_supported f h
  rw [hk]; omega

theorem newVertexArray_ok (g : GLState) (shdr : shader.Shader) (cap : Int)
    (h : Supported shdr.VertexFormat)
    (hfit : (if cap < vertexArrayMinCap then vertexArrayMinCap else cap) *
      shader.AttrFormat.Size shdr.VertexFormat < 9223372036854775808) :
    ∃ offset st, newVertexArray g shdr cap =
      .ok ({ vao := g.vertexArrays + 1, vbo := g.buffers.length + 1,
             cap := if cap < vertexArrayMinCap then vertexArrayMinCap else cap,
             format := shdr.VertexFormat,
             stride := shader.AttrFormat.Size shdr.VertexFormat,
             offset := offset, shader := shdr },
           { g with
             vertexArrays := g.vertexArrays + 1
             buffers := g.buffers ++ [List.replicate
               (Int.tdiv ((if cap < vertexArrayMinCap then vertexArrayMinCap else cap) *
                 shader.AttrFormat.Size shdr.VertexFormat) 4).toNat 0]
             statistic := st }) := by
  obtain ⟨offset, ho⟩ := attrOffsets_of_supported _ h 0
  refine ⟨offset, ?_⟩
  have hnn : 0 ≤ (if cap < vertexArrayMinCap then vertexArrayMinCap else cap) *
      shader.AttrFormat.Size shdr.VertexFormat :=
    Int.mul_nonneg (by simp only [vertexArrayMinCap]; omega) (size_nonneg _ h)
  have hw := wrapInt_of_fits _ (le_trans (by decide) hnn) hfit
  simp only [newVertexArray, ho, gl.GenVertexArrays, gl.GenBuffers, vertexArray.bindVAO,
    vertexArray.bindVBO, vertexArray.unbindVAO, vertexArray.unbindVBO, history.Push, history.Pop,
    gl.GetIntegerv, gl.BindVertexArray, gl.BindBuffer, gl.BufferData, gl.boundStore,
    statistic.IncrementVAOBinds, statistic.IncrementVBOBinds, hw, if_neg (not_lt.mpr hnn)]
  by_cases h1 : g.arrayBufferBinding = 0 <;> by_cases h2 : g.vertexArrayBinding = 0 <;>
    simp [h1, h2]

theorem begin_eq (va : vertexArray) (g : GLState) :
    ∃ st, va.begin g =
      { g with
        vertexArrayBinding := va.vao
        arrayBufferBinding := va.vbo
        historyVAO := g.vertexArrayBinding :: g.historyVAO
        historyVBO := g.arrayBufferBinding :: g.historyVBO
        statistic := st } :=
  ⟨_, rfl⟩

theorem beginDraw_eq (va : vertexArray) (g : GLState) :
    ∃ st, va.beginDraw g =
      { g with
        vertexArrayBinding := va.vao
        historyVAO := g.vertexArrayBinding :: g.historyVAO
        statistic := st } :=
  ⟨_, rfl⟩

theorem end_eq (va : vertexArray) (g : GLState) (a b : Nat) (A B : List Nat)
    (hA : g.historyVAO = a :: A) (hB : g.historyVBO = b :: B) :
    ∃ st, va.end_ g =
      .ok { g with
        vertexArrayBinding := a
        arrayBufferBinding := b
        historyVAO := A
        historyVBO := B
        statistic := st } := by
  simp only [vertexArray.end_, vertexArray.unbindVAO, vertexArray.unbindVBO, history.Pop, hA, hB,
    gl.BindVertexArray, gl.BindBuffer, statistic.IncrementVAOBinds, statistic.IncrementVBOBinds]
  by_cases h1 : a = 0 <;> by_cases h2 : b = 0 <;> simp [h1, h2, hA]

theorem endDraw_eq (va : vertexArray) (g : GLState) (a : Nat) (A : List Nat)
    (hA : g.historyVAO = a :: A) :
    ∃ st, va.endDraw g =
      .ok { g with
        vertexArrayBinding := a
        historyVAO := A
        statistic := st } := by
  simp only [vertexArray.endDraw, vertexArray.unbindVAO, history.Pop, hA,
    gl.BindVertexArray, statistic.IncrementVAOBinds]
  by_cases h1 : a = 0 <;> simp [h1]

/-! ## Making and slicing -/

theorem MakeVertexSlice_ok (g : GLState) (shdr : shader.Shader) (len cap : Int)
    (h : Supported shdr.VertexFormat) (hlen : len ≤ cap)
    (hfit : (if cap < vertexArrayMinCap then vertexArrayMinCap else cap) *
      shader.AttrFormat.Size shdr.VertexFormat < 9223372036854775808) :
    ∃ offset st, MakeVertexSlice g shdr len cap =
      .ok ({ va := { vao := g.vertexArrays + 1, vbo := g.buffers.length + 1,
                     cap := if cap < vertexArrayMinCap then vertexArrayMinCap else cap,
                     format := shdr.VertexFormat,
                     stride := shader.AttrFormat.Size shdr.VertexFormat,
                     offset := offset, shader := shdr },
             i := 0, j := len },
           { g with
             vertexArrays := g.vertexArrays + 1
             buffers := g.buffers ++ [List.replicate
               (Int.tdiv ((if cap < vertexArrayMinCap then vertexArrayMinCap else cap) *
                 shader.AttrFormat.Size shdr.VertexFormat) 4).toNat 0]
             statistic := st }) := by
  obtain ⟨offset, st, hv⟩ := newVertexArray_ok g shdr cap h hfit
  exact ⟨offset, st, by simp [MakeVertexSlice, hv, not_lt.mpr hlen]⟩

theorem newVertexArray_cap (g g1 : GLState) (shdr : shader.Shader) (cap : Int)
    (va : vertexArray) (h : newVertexArray g shdr cap = .ok (va, g1)) :
    va.cap = (if cap < vertexArrayMinCap then vertexArrayMinCap else cap) := by
  cases ho : attrOffsets shdr.VertexFormat 0 with
  | none => simp [newVertexArray, ho] at h
  | some offset =>
    simp only [newVertexArray, ho, gl.GenVertexArrays, gl.GenBuffers] at h
    generalize (if cap < vertexArrayMinCap then vertexArrayMinCap else cap) = C at h ⊢
    split at h
    · cases h
    · split at h
      · cases h
      · split at h
        · cases h
        · simp only [Except.ok.injEq, Prod.mk.injEq] at h
          rw [← h.1]

theorem MakeVertexSlice_shape (g g1 : GLState) (shdr : shader.Shader) (len cap : Int)
    (vs : VertexSlice) (h : MakeVertexSlice g shdr len cap = .ok (vs, g1)) :
    vs.i = 0 ∧ vs.j = len ∧ len ≤ cap ∧
      vs.va.cap = (if cap < vertexArrayMinCap then vertexArrayMinCap else cap) := by
  simp only [MakeVertexSlice] at h
  split at h
  · cases h
  · rename_i hle
    cases hv : newVertexArray g shdr cap with
    | error e => simp [hv] at h
    | ok r =>
      obtain ⟨va, g2⟩ := r
      simp only [hv, Except.ok.injEq, Prod.mk.injEq] at h
      obtain ⟨h1, _⟩ := h
      subst h1
      exact ⟨rfl, rfl, not_lt.mp hle, newVertexArray_cap _ _ _ _ _ hv⟩

/-- Claim C1, amended. For a shader whose attributes all have a supported type, `MakeVertexSlice`
fails when `len > cap`.  When `len ≤ cap` and the byte size `max(cap, 4) * stride` of the store is
below `2^63`, it returns a slice over a well-formed vertex array whose buffer is allocated with
that size.  Whenever it returns, the vertex array has capacity `max(cap, 4)`, at least the minimum
capacity 4, and the slice covers `[0, len)`, so that `Len()` is `len` and `Cap()` is at least
`cap`. -/
theorem MakeVertexSlice_spec (g : GLState) (shdr : shader.Shader) (len cap : Int)
    (h : Supported shdr.VertexFormat) :
    (len > cap → MakeVertexSlice g shdr len cap = .error .lenGreaterThanCap) ∧
    (len ≤ cap → max cap 4 * shader.AttrFormat.Size shdr.VertexFormat < 9223372036854775808 →
      ∃ vs g1, MakeVertexSlice g shdr len cap = .ok (vs, g1) ∧
        vs.va.WellFormed ∧ Live g1 vs.va) ∧
    (∀ vs g1, MakeVertexSlice g shdr len cap = .ok (vs, g1) →
      vs.i = 0 ∧ vs.j = len ∧ vs.Len = len ∧ vs.Cap ≥ cap ∧ vs.va.cap ≥ 4 ∧
      vs.va.cap = max cap 4) := by
  have hmax : (if cap < vertexArrayMinCap then vertexArrayMinCap else cap) = max cap 4 := by
    simp only [vertexArrayMinCap]; omega
  refine ⟨?_, ?_, ?_⟩
  · intro hgt
    simp [MakeVertexSlice, hgt]
  · intro hle hfit
    rw [← hmax] at hfit
    obtain ⟨offset, st, hv⟩ := MakeVertexSlice_ok g shdr len cap h hle hfit
    obtain ⟨k, hk, _⟩ := size_of_supported _ h
    have hc : ∃ c : Nat, (c : Int) =
        (if cap < vertexArrayMinCap then vertexArrayMinCap else cap) :=
      ⟨(if cap < vertexArrayMinCap then vertexArrayMinCap else cap).toNat, by
        rw [Int.toNat_of_nonneg]; simp only [vertexArrayMinCap]; omega⟩
    obtain ⟨c, hc⟩ := hc
    refine ⟨_, _, hv, ⟨rfl, rfl, h⟩, ?_⟩
    refine ⟨by simp, ?_⟩
    simp only [← hc, hk, tdiv_four_mul, words_eq]
    simp
  · intro vs g1 hv
    obtain ⟨h1, h2, h3, h4⟩ := MakeVertexSlice_shape _ _ _ _ _ _ hv
    rw [hmax] at h4
    refine ⟨h1, h2, ?_, ?_, ?_, h4⟩
    · rw [VertexSlice.Len, h1, h2]; omega
    · rw [VertexSlice.Cap, h1, h4]; omega
    · rw [h4]; omega

/-- The statement of `MakeVertexSlice_spec` at the single-`Float` shader, with `len = 2` and
`cap = 3`. -/
theorem MakeVertexSlice_spec_witness :
    Supported floatShader.VertexFormat ∧
    ∃ vs g1, MakeVertexSlice emptyContext floatShader 2 3 = .ok (vs, g1) ∧
      vs.va.WellFormed ∧ Live g1 vs.va ∧
      vs.i = 0 ∧ vs.j = 2 ∧ vs.Len = 2 ∧ vs.Cap ≥ 3 ∧ vs.va.cap ≥ 4 ∧ vs.va.cap = max 3 4 := by
  have h := MakeVertexSlice_spec emptyContext floatShader 2 3 (by decide)
  obtain ⟨vs, g1, h1, h2, h3⟩ := h.2.1 (by decide) (by decide)
  exact ⟨by decide, vs, g1, h1, h2, h3, h.2.2 vs g1 h1⟩

/-- Claim C1 as stated fails: with `len = 0 ≤ cap = 2^61` and the single-`Float` shader, whose
stride is 4 bytes, the byte size `cap*va.stride` is `2^63`, which wraps to `-2^63`, and `make`
panics instead of the slice being returned. -/
theorem MakeVertexSlice_large_cap :
    Supported floatShader.VertexFormat ∧ (0 : Int) ≤ 2305843009213693952 ∧
    MakeVertexSlice emptyContext floatShader 0 2305843009213693952 = .error .makesliceLen :=
  ⟨by decide, by decide, rfl⟩

/-- Claim C2. `Slice(i, j)` fails exactly when `i < 0`, `j < i` or `j` exceeds the capacity of the
underlying vertex array.  Otherwise it returns a slice over the same vertex array that covers
`[vs.i + i, vs.i + j)`, whose `Len()` is `j - i`; the receiver is a value the call does not
change. -/
theorem Slice_spec (vs : VertexSlice) (i j : Int) :
    (vs.Slice i j = .error .indexOutOfRange ↔ (i < 0 ∨ j < i ∨ j > vs.va.cap)) ∧
    ((∃ e, vs.Slice i j = .error e) ↔ (i < 0 ∨ j < i ∨ j > vs.va.cap)) ∧
    (¬ (i < 0 ∨ j < i ∨ j > vs.va.cap) →
      vs.Slice i j = .ok { va := vs.va, i := vs.i + i, j := vs.i + j } ∧
      ∀ s, vs.Slice i j = .ok s → s.va = vs.va ∧ s.i = vs.i + i ∧ s.j = vs.i + j ∧
        s.Len = j - i) := by
  by_cases h : i < 0 ∨ j < i ∨ j > vs.va.cap
  · simp [VertexSlice.Slice, h]
  · simp only [VertexSlice.Slice, h, if_false, false_iff, not_false_eq_true, true_and,
      forall_true_left, not_exists]
    refine ⟨by simp, by simp, ?_⟩
    intro s hs
    cases hs
    simp [VertexSlice.Len]

/-! ## Uploading and downloading -/

theorem setVertexData_live (va : vertexArray) (g : GLState) (i j k : Nat) (store d : List float32)
    (hs : va.stride = 4 * (k : Int)) (hk : 0 < k) (hb : g.arrayBufferBinding = va.vbo)
    (hv : va.vbo ≠ 0) (hst : g.buffers[va.vbo - 1]? = some store) (hij : i ≤ j)
    (hj : j * k ≤ store.length) (hd : d.length = (j - i) * k) :
    ∃ st, va.setVertexData g i j d =
      .ok { g with
        buffers := g.buffers.set (va.vbo - 1) (overwrite store (i * k) d)
        statistic := st } := by
  have hlt : va.vbo - 1 < g.buffers.length := by
    by_contra hc
    rw [List.getElem?_eq_none (by omega)] at hst
    cases hst
  have hik : i * k + (j - i) * k = j * k := by
    rw [← Nat.add_mul]; congr 1; omega
  by_cases h0 : (j : Int) - (i : Int) = 0
  · have hji : j - i = 0 := by omega
    have hd0 : d = [] := by
      apply List.eq_nil_of_length_eq_zero; rw [hd, hji]; simp
    refine ⟨g.statistic, ?_⟩
    simp only [vertexArray.setVertexData, h0, if_true]
    have : overwrite store (i * k) d = store := by
      rw [hd0]; simp [overwrite]
    rw [this]
    have hset : g.buffers.set (va.vbo - 1) store = g.buffers := by
      apply List.ext_getElem?
      intro n
      by_cases hn : va.vbo - 1 = n
      · subst hn; rw [List.getElem?_set_self hlt, hst]
      · rw [List.getElem?_set_ne hn]
    rw [hset]
  · have hbs : gl.boundStore (statistic.AddVertexUpload g
        (Int.tdiv (d.length : Int) (Int.tdiv va.stride 4))) = some store := by
      simp [gl.boundStore, statistic.AddVertexUpload, hb, hv, hst]
    have hk4 : Int.tdiv va.stride 4 ≠ 0 := by
      rw [hs, tdiv_four_mul]; omega
    have hoff : (i : Int) * va.stride = 4 * ((i * k : Nat) : Int) := by
      rw [hs]; push_cast; ring
    have hrange : ¬ ((i : Int) * va.stride < 0 ∨ (d.length : Int) * 4 < 0 ∨
        (i : Int) * va.stride + (d.length : Int) * 4 > 4 * (store.length : Int)) := by
      rw [hoff]; omega
    have hfirst : (Int.tdiv ((i : Int) * va.stride) 4).toNat = i * k := by
      rw [hs]; exact words_eq i k
    have hcount : (Int.tdiv ((d.length : Int) * 4) 4).toNat = d.length := by
      rw [Int.mul_tdiv_cancel _ (by decide), Int.toNat_ofNat]
    refine ⟨(statistic.AddVertexUpload g
      (Int.tdiv (d.length : Int) (Int.tdiv va.stride 4))).statistic, ?_⟩
    simp only [vertexArray.setVertexData, h0, hk4, if_false, gl.BufferSubData, hbs, hrange,
      hfirst, hcount, List.take_length]
    simp [statistic.AddVertexUpload, hb]

theorem vertexData_live (va : vertexArray) (g : GLState) (i j k : Nat) (store : List float32)
    (hs : va.stride = 4 * (k : Int)) (hb : g.arrayBufferBinding = va.vbo)
    (hv : va.vbo ≠ 0) (hst : g.buffers[va.vbo - 1]? = some store) (hij : i ≤ j)
    (hj : j * k ≤ store.length) :
    va.vertexData g i j = .ok ((store.drop (i * k)).take ((j - i) * k)) := by
  have hik : i * k + (j - i) * k = j * k := by
    rw [← Nat.add_mul]; congr 1; omega
  by_cases h0 : (j : Int) - (i : Int) = 0
  · have hji : j - i = 0 := by omega
    simp [vertexArray.vertexData, h0, hji]
  · have hbs : gl.boundStore g = some store := by
      simp [gl.boundStore, hb, hv, hst]
    have hlen : Int.tdiv (((j : Int) - (i : Int)) * va.stride) 4 = (((j - i) * k : Nat) : Int) := by
      have : ((j : Int) - (i : Int)) * va.stride = 4 * (((j - i) * k : Nat) : Int) := by
        rw [hs]; push_cast [Nat.cast_sub hij]; ring
      rw [this, tdiv_four_mul]
    have hoff : (i : Int) * va.stride = 4 * ((i * k : Nat) : Int) := by
      rw [hs]; push_cast; ring
    have hfirst : (Int.tdiv ((i : Int) * va.stride) 4).toNat = i * k := by
      rw [hs]; exact words_eq i k
    have hrange : ¬ ((i : Int) * va.stride < 0 ∨ (((j - i) * k : Nat) : Int) * 4 < 0 ∨
        (i : Int) * va.stride + (((j - i) * k : Nat) : Int) * 4 > 4 * (store.length : Int)) := by
      rw [hoff]; omega
    have hcount : (Int.tdiv ((((j - i) * k : Nat) : Int) * 4) 4).toNat = (j - i) * k := by
      rw [Int.mul_tdiv_cancel _ (by decide), Int.toNat_ofNat]
    have hneg : ¬ ((((j - i) * k : Nat) : Int) < 0) := by omega
    simp only [vertexArray.vertexData, h0, if_false, hlen, hneg, Int.toNat_ofNat,
      List.length_replicate, gl.GetBufferSubData, hbs, hrange, hfirst, hcount]

theorem live_view (g : GLState) (vs : VertexSlice) (hL : Live g vs.va)
    (hW : vs.va.WellFormed) (hI : vs.Inv) :
    ∃ (k i j : Nat) (store : List float32),
      vs.va.stride = 4 * (k : Int) ∧ vs.Stride = k ∧ vs.i = i ∧ vs.j = j ∧ i ≤ j ∧
      vs.va.vbo ≠ 0 ∧ g.buffers[vs.va.vbo - 1]? = some store ∧ j * k ≤ store.length := by
  obtain ⟨k, hk, _⟩ := size_of_supported _ hW.2.2
  obtain ⟨h0, h1, h2⟩ := hI
  obtain ⟨i, hi⟩ := Int.eq_ofNat_of_zero_le h0
  obtain ⟨j, hj⟩ := Int.eq_ofNat_of_zero_le (le_trans h0 h1)
  obtain ⟨hv, hl⟩ := hL
  have hs : vs.va.stride = 4 * (k : Int) := by rw [hW.2.1, hk]
  cases hst : g.buffers[vs.va.vbo - 1]? with
  | none => rw [hst] at hl; simp at hl
  | some store =>
    rw [hst, hs, tdiv_four_mul] at hl
    simp only [Option.map_some', Option.some.injEq] at hl
    refine ⟨k, i, j, store, hs, ?_, hi, hj, ?_, hv, rfl, ?_⟩
    · simp [VertexSlice.Stride, hs, tdiv_four_mul]
    · omega
    · have : (j : Int) * (k : Int) ≤ vs.va.cap * (k : Int) :=
        Int.mul_le_mul_of_nonneg_right (by omega) (Int.ofNat_zero_le k)
      have h3 : ((j * k : Nat) : Int) ≤ ((store.length : Nat) : Int) := by
        push_cast; omega
      exact_mod_cast h3

theorem SetVertexData_live (g : GLState) (vs : VertexSlice) (d : List float32) (k i j : Nat)
    (store : List float32) (hs : vs.va.stride = 4 * (k : Int)) (hk : 0 < k)
    (hi : vs.i = i) (hj : vs.j = j) (hij : i ≤ j)
    (hb : g.arrayBufferBinding = vs.va.vbo) (hv : vs.va.vbo ≠ 0)
    (hst : g.buffers[vs.va.vbo - 1]? = some store) (hjk : j * k ≤ store.length)
    (hd : d.length = (j - i) * k) :
    ∃ st, vs.SetVertexData g d =
      .ok { g with
        buffers := g.buffers.set (vs.va.vbo - 1) (overwrite store (i * k) d)
        statistic := st } := by
  obtain ⟨st, h⟩ := setVertexData_live vs.va g i j k store d hs hk hb hv hst hij hjk hd
  refine ⟨st, ?_⟩
  have hS : vs.Stride = k := by simp [VertexSlice.Stride, hs, tdiv_four_mul]
  have hlen : Int.tdiv (d.length : Int) (k : Int) = vs.Len := by
    rw [hd, VertexSlice.Len, hi, hj]
    push_cast [Nat.cast_sub hij]
    exact Int.mul_tdiv_cancel _ (by omega)
  unfold VertexSlice.SetVertexData
  rw [hS, if_neg (by omega), hlen, if_neg (by simp), hi, hj]
  exact h

/-- Claim C8. Round trip.  For an entered slice whose vertex array is allocated and which satisfies
the view invariant, and data `d` with `len(d) == Len() * Stride()`: `SetVertexData(d)` returns
whenever `Stride()` is not zero (with an attribute-less format its length check divides by zero),
and whenever it returns, `VertexData()` gives back `d` (the empty sequence for a slice of length
zero), the data store keeps its length and its elements outside `[i, j)`, and every other buffer
is unchanged. -/
theorem SetVertexData_VertexData (g : GLState) (vs : VertexSlice) (d : List float32)
    (hE : Entered g vs) (hL : Live g vs.va) (hW : vs.va.WellFormed) (hI : vs.Inv)
    (hd : (d.length : Int) = vs.Len * vs.Stride) :
    (vs.Stride ≠ 0 → ∃ g1, vs.SetVertexData g d = .ok g1) ∧
    ∀ g1, vs.SetVertexData g d = .ok g1 →
      vs.VertexData g1 = .ok d ∧
      (vs.Len = 0 → vs.VertexData g1 = .ok []) ∧
      (storeOf g1 vs.va).length = (storeOf g vs.va).length ∧
      (∀ p : Nat, ((p : Int) < vs.i * vs.Stride ∨ vs.j * vs.Stride ≤ (p : Int)) →
        (storeOf g1 vs.va)[p]? = (storeOf g vs.va)[p]?) ∧
      (∀ n : Nat, n ≠ vs.va.vbo - 1 → g1.buffers[n]? = g.buffers[n]?) := by
  obtain ⟨k, i, j, store, hs, hS, hi, hj, hij, hv, hst, hjk⟩ := live_view g vs hL hW hI
  by_cases hk : k = 0
  · subst hk
    have : vs.SetVertexData g d = .error .divideByZero := by
      simp [VertexSlice.SetVertexData, hS]
    constructor
    · intro h; exact absurd hS (by simpa using h)
    · intro g1 h1; rw [this] at h1; cases h1
  · have hk0 : 0 < k := Nat.pos_of_ne_zero hk
    have hdn : d.length = (j - i) * k := by
      have : ((d.length : Nat) : Int) = (((j - i) * k : Nat) : Int) := by
        rw [hd, VertexSlice.Len, hS, hi, hj]; push_cast [Nat.cast_sub hij]; ring
      exact_mod_cast this
    have hik : i * k + (j - i) * k = j * k := by
      rw [← Nat.add_mul]; congr 1; omega
    have hlt : vs.va.vbo - 1 < g.buffers.length := by
      by_contra hc
      rw [List.getElem?_eq_none (by omega)] at hst
      cases hst
    obtain ⟨st, hset⟩ :=
      SetVertexData_live g vs d k i j store hs hk0 hi hj hij hE.2.1 hv hst hjk hdn
    refine ⟨fun _ => ⟨_, hset⟩, ?_⟩
    intro g1 h1
    rw [hset] at h1
    cases h1
    have hst1 : (g.buffers.set (vs.va.vbo - 1) (overwrite store (i * k) d))[vs.va.vbo - 1]? =
        some (overwrite store (i * k) d) := List.getElem?_set_self hlt
    have hread : vs.VertexData
        { g with
          buffers := g.buffers.set (vs.va.vbo - 1) (overwrite store (i * k) d)
          statistic := st } = .ok d := by
      have hget := vertexData_live vs.va
        { g with
          buffers := g.buffers.set (vs.va.vbo - 1) (overwrite store (i * k) d)
          statistic := st } i j k (overwrite store (i * k) d) hs hE.2.1 hv hst1 hij
          (by rw [length_overwrite _ _ _ (by omega)]; exact hjk)
      rw [VertexSlice.VertexData, hi, hj, hget, ← hdn, window_overwrite _ _ _ (by omega)]
    refine ⟨hread, ?_, ?_, ?_, ?_⟩
    · intro hlen
      have : d = [] := by
        apply List.eq_nil_of_length_eq_zero
        have : (d.length : Int) = 0 := by rw [hd, hlen]; simp
        exact_mod_cast this
      rw [hread, this]
    · simp only [storeOf, hst1, hst, Option.getD_some]
      exact length_overwrite _ _ _ (by omega)
    · intro p hp
      simp only [storeOf, hst1, hst, Option.getD_some]
      rw [getElem?_overwrite _ _ _ _ (by omega)]
      rw [hi, hj, hS] at hp
      have hp2 : p < i * k ∨ j * k ≤ p := by
        rcases hp with hp | hp
        · left; exact_mod_cast hp
        · right; exact_mod_cast hp
      rcases hp2 with hp2 | hp2
      · simp [hp2]
      · simp [show ¬ p < i * k by omega, show ¬ p < i * k + d.length by omega]
    · intro n hn
      exact List.getElem?_set_ne (Ne.symm hn)

theorem exampleSlice_made :
    MakeVertexSlice emptyContext floatShader 2 4 = .ok (exampleSlice, exampleMade) ∧
    exampleSlice.Begin exampleMade = exampleEntered :=
  ⟨rfl, rfl⟩

/-- The statement of `SetVertexData_VertexData` at `exampleSlice`, entered, with data `[5, 6]`. -/
theorem SetVertexData_VertexData_witness :
    Entered exampleEntered exampleSlice ∧ Live exampleEntered exampleSlice.va ∧
    exampleSlice.va.WellFormed ∧ exampleSlice.Inv ∧
    (([5, 6] : List float32).length : Int) = exampleSlice.Len * exampleSlice.Stride ∧
    ∃ g1, exampleSlice.SetVertexData exampleEntered [5, 6] = .ok g1 ∧
      exampleSlice.VertexData g1 = .ok [5, 6] := by
  have h := SetVertexData_VertexData exampleEntered exampleSlice [5, 6]
    (by decide) (by decide) (by decide) (by decide) (by decide)
  obtain ⟨g1, hg1⟩ := h.1 (by decide)
  exact ⟨by decide, by decide, by decide, by decide, by decide, g1, hg1, (h.2 g1 hg1).1⟩

/-- Claim C9. Aliasing.  For an entered slice `v` whose vertex array is allocated and which
satisfies the view invariant, `0 ≤ i ≤ j ≤ v.Len()` and data `d` of the length of the sub-slice:
`s = v.Slice(i, j)` succeeds and shares the vertex array; `s.SetVertexData(d)` returns whenever
`Stride()` is not zero, and whenever it returns, `v.VertexData()` afterwards has the length it had
before, holds `d` in the positions `[i * Stride, j * Stride)` and is unchanged in every other
position. -/
theorem Slice_SetVertexData_aliasing (g : GLState) (v : VertexSlice) (i j : Int)
    (d : List float32) (hE : Entered g v) (hL : Live g v.va) (hW : v.va.WellFormed)
    (hI : v.Inv) (hi : 0 ≤ i) (hij : i ≤ j) (hj : j ≤ v.Len)
    (hd : (d.length : Int) = (j - i) * v.Stride) :
    ∃ s, v.Slice i j = .ok s ∧ s.va = v.va ∧ s.Len * s.Stride = (j - i) * v.Stride ∧
      (v.Stride ≠ 0 → ∃ g1, s.SetVertexData g d = .ok g1) ∧
      ∀ g1, s.SetVertexData g d = .ok g1 →
        ∃ old new, v.VertexData g = .ok old ∧ v.VertexData g1 = .ok new ∧
          new.length = old.length ∧
          (new.drop (i * v.Stride).toNat).take ((j - i) * v.Stride).toNat = d ∧
          ∀ p : Nat, ((p : Int) < i * v.Stride ∨ j * v.Stride ≤ (p : Int)) →
            new[p]? = old[p]? := by
  obtain ⟨k, a, b, store, hs, hS, ha, hb, hab, hv, hst, hbk⟩ := live_view g v hL hW hI
  obtain ⟨i', hi'⟩ := Int.eq_ofNat_of_zero_le hi
  obtain ⟨j', hj'⟩ := Int.eq_ofNat_of_zero_le (le_trans hi hij)
  subst hi' hj'
  have hij' : i' ≤ j' := by omega
  have hjb : a + j' ≤ b := by rw [VertexSlice.Len, ha, hb] at hj; omega
  have hcap : (j' : Int) ≤ v.va.cap := by have := hI.2.2; rw [hb] at this; omega
  have hslice : v.Slice i' j' = .ok { va := v.va, i := v.i + i', j := v.i + j' } := by
    simp only [VertexSlice.Slice]
    rw [if_neg (by omega)]
  refine ⟨_, hslice, rfl, by simp [VertexSlice.Len, VertexSlice.Stride], ?_⟩
  by_cases hk : k = 0
  · subst hk
    have : VertexSlice.SetVertexData { va := v.va, i := v.i + i', j := v.i + j' } g d =
        .error .divideByZero := by
      have hS0 : v.Stride = 0 := by simpa using hS
      simp only [VertexSlice.SetVertexData, VertexSlice.Stride] at hS0 ⊢
      rw [if_pos hS0]
    constructor
    · intro h; exact absurd hS (by simpa using h)
    · intro g1 h1; rw [this] at h1; cases h1
  · have hk0 : 0 < k := Nat.pos_of_ne_zero hk
    have hdn : d.length = (j' - i') * k := by
      have : ((d.length : Nat) : Int) = (((j' - i') * k : Nat) : Int) := by
        rw [hd, hS]; push_cast [Nat.cast_sub hij']; ring
      exact_mod_cast this
    have e1 : (a + i') * k = a * k + i' * k := Nat.add_mul _ _ _
    have e2 : (a + j') * k = a * k + j' * k := Nat.add_mul _ _ _
    have e3 : i' * k + (j' - i') * k = j' * k := by
      rw [← Nat.add_mul]; congr 1; omega
    have e4 : a * k + (b - a) * k = b * k := by
      rw [← Nat.add_mul]; congr 1; omega
    have e5 : (a + j') * k ≤ b * k := Nat.mul_le_mul_right k hjb
    have e6 : (a + j' - (a + i')) * k = (j' - i') * k := by congr 1; omega
    have hlt : v.va.vbo - 1 < g.buffers.length := by
      by_contra hc
      rw [List.getElem?_eq_none (by omega)] at hst
      cases hst
    obtain ⟨st, hset⟩ := SetVertexData_live g { va := v.va, i := v.i + i', j := v.i + j' } d k
      (a + i') (a + j') store hs hk0 (by simp [ha]) (by simp [ha]) (by omega) hE.2.1 hv hst
      (by omega) (by rw [e6]; exact hdn)
    refine ⟨fun _ => ⟨_, hset⟩, ?_⟩
    intro g1 h1
    rw [hset] at h1
    cases h1
    have hst1 : (g.buffers.set (v.va.vbo - 1) (overwrite store ((a + i') * k) d))[v.va.vbo - 1]? =
        some (overwrite store ((a + i') * k) d) := List.getElem?_set_self hlt
    have hold := vertexData_live v.va g a b k store hs hE.2.1 hv hst hab hbk
    have hnew := vertexData_live v.va
      { g with
        buffers := g.buffers.set (v.va.vbo - 1) (overwrite store ((a + i') * k) d)
        statistic := st } a b k (overwrite store ((a + i') * k) d) hs hE.2.1 hv hst1 hab
      (by rw [length_overwrite _ _ _ (by omega)]; exact hbk)
    rw [outer_window_overwrite _ _ _ _ _ (by omega) (by omega) (by omega)] at hnew
    have hoff : (a + i') * k - a * k = i' * k := by omega
    rw [hoff] at hnew
    have holdlen : ((store.drop (a * k)).take ((b - a) * k)).length = (b - a) * k := by
      simp; omega
    have hfit : i' * k + d.length ≤ ((store.drop (a * k)).take ((b - a) * k)).length := by
      rw [holdlen]; omega
    have hx : ((i' : Int) * v.Stride).toNat = i' * k := by
      rw [hS]; exact_mod_cast Int.toNat_ofNat (i' * k)
    have hy : (((j' : Int) - (i' : Int)) * v.Stride).toNat = d.length := by
      rw [hS, hdn]
      have : ((j' : Int) - (i' : Int)) * (k : Int) = (((j' - i') * k : Nat) : Int) := by
        push_cast [Nat.cast_sub hij']; ring
      rw [this, Int.toNat_ofNat]
    refine ⟨_, _, by rw [VertexSlice.VertexData, ha, hb]; exact hold,
      by rw [VertexSlice.VertexData, ha, hb]; exact hnew,
      length_overwrite _ _ _ hfit, ?_, ?_⟩
    · rw [hx, hy]
      exact window_overwrite _ _ _ hfit
    · intro p hp
      rw [getElem?_overwrite _ _ _ _ hfit]
      rw [hS] at hp
      have hp2 : p < i' * k ∨ j' * k ≤ p := by
        rcases hp with hp | hp
        · left; exact_mod_cast hp
        · right; exact_mod_cast hp
      rcases hp2 with hp2 | hp2
      · simp [hp2]
      · simp [show ¬ p < i' * k by omega, show ¬ p < i' * k + d.length by omega]

/-! ## Resizing -/

theorem vertexData_zero (va : vertexArray) (g : GLState) (a b k m : Nat)
    (hs : va.stride = 4 * (k : Int)) (hab : a ≤ b)
    (hbs : gl.boundStore g = some (List.replicate m 0)) :
    va.vertexData g a b = .ok (List.replicate ((b - a) * k) 0) := by
  by_cases h0 : (b : Int) - (a : Int) = 0
  · have hba : b - a = 0 := by omega
    simp [vertexArray.vertexData, h0, hba]
  · have hlen : Int.tdiv (((b : Int) - (a : Int)) * va.stride) 4 = (((b - a) * k : Nat) : Int) := by
      have : ((b : Int) - (a : Int)) * va.stride = 4 * (((b - a) * k : Nat) : Int) := by
        rw [hs]; push_cast [Nat.cast_sub hab]; ring
      rw [this, tdiv_four_mul]
    have hoff : (a : Int) * va.stride = 4 * ((a * k : Nat) : Int) := by
      rw [hs]; push_cast; ring
    have hfirst : (Int.tdiv ((a : Int) * va.stride) 4).toNat = a * k := by
      rw [hs]; exact words_eq a k
    have hcount : (Int.tdiv ((((b - a) * k : Nat) : Int) * 4) 4).toNat = (b - a) * k := by
      rw [Int.mul_tdiv_cancel _ (by decide), Int.toNat_ofNat]
    have hneg : ¬ ((((b - a) * k : Nat) : Int) < 0) := by omega
    simp only [vertexArray.vertexData, h0, if_false, hlen, hneg, Int.toNat_ofNat,
      List.length_replicate, gl.GetBufferSubData, hbs, hfirst, hcount]
    split
    · rfl
    · rename_i hr
      rw [hoff] at hr
      simp only [List.drop_replicate, List.take_replicate]
      rw [Nat.min_eq_left (by omega)]

theorem grow_fresh (g : GLState) (vs : VertexSlice) (n : Int) (k a b : Nat)
    (hW : vs.va.WellFormed) (hs : vs.va.stride = 4 * (k : Int)) (hk : 0 < k)
    (ha : vs.i = a) (hb : vs.j = b) (hab : a ≤ b) (hcap : (b : Int) ≤ vs.va.cap)
    (hn : vs.Cap < n)
    (hfit : max 4 (VertexSlice.growCap vs.Cap n) * vs.va.stride < 9223372036854775808) :
    ∃ (offset : List Int) (st : Statistic) (c : Nat),
      (c : Int) = max 4 (VertexSlice.growCap vs.Cap n) ∧
      vs.grow g n =
        .ok ({ va := { vao := g.vertexArrays + 1, vbo := g.buffers.length + 1, cap := c,
                       format := vs.va.shader.VertexFormat, stride := vs.va.stride,
                       offset := offset, shader := vs.va.shader },
               i := 0, j := n },
             { g with
               vertexArrays := g.vertexArrays + 1
               buffers := g.buffers ++ [List.replicate (c * k) 0]
               statistic := st }) := by
  have hclamp : (if VertexSlice.growCap vs.Cap n < vertexArrayMinCap then vertexArrayMinCap
      else VertexSlice.growCap vs.Cap n) = max 4 (VertexSlice.growCap vs.Cap n) := by
    simp only [vertexArrayMinCap]; omega
  obtain ⟨offset, st1, h1⟩ :=
    newVertexArray_ok g vs.va.shader (VertexSlice.growCap vs.Cap n) hW.2.2
      (by rw [hclamp, ← hW.2.1]; exact hfit)
  obtain ⟨c, hc⟩ : ∃ c : Nat, (c : Int) =
      (if VertexSlice.growCap vs.Cap n < vertexArrayMinCap then vertexArrayMinCap
        else VertexSlice.growCap vs.Cap n) := by
    refine ⟨(if VertexSlice.growCap vs.Cap n < vertexArrayMinCap then vertexArrayMinCap
        else VertexSlice.growCap vs.Cap n).toNat, ?_⟩
    rw [Int.toNat_of_nonneg]
    simp only [vertexArrayMinCap]; split <;> omega
  have hcn : n ≤ (c : Int) := by
    rw [hc]; simp only [vertexArrayMinCap, VertexSlice.growCap]
    split <;> split <;> split <;> omega
  have hcmax : (c : Int) = max 4 (VertexSlice.growCap vs.Cap n) := by
    rw [hc]; simp only [vertexArrayMinCap]; omega
  rw [← hc, ← hW.2.1, hs, words_eq c k] at h1
  refine ⟨offset, ?_⟩
  rcases g with ⟨vaoB, vboB, nva, bufs, hA, hB, stat⟩
  simp only [] at h1 ⊢
  have hlen : (a : Int) ≤ b := by exact_mod_cast hab
  have hLen : vs.Len = ((b - a : Nat) : Int) := by
    rw [VertexSlice.Len, ha, hb]; omega
  have hcapn : vs.va.cap - (a : Int) < n := by rw [VertexSlice.Cap, ha] at hn; exact hn
  have hslice : ¬ ((0 : Int) < 0 ∨ vs.Len < 0 ∨ vs.Len > (c : Int)) := by
    rw [hLen]; omega
  have hbac : (b - a) * k ≤ c * k := Nat.mul_le_mul_right k (by omega)
  have hget : (bufs ++ [List.replicate (c * k) (0 : float32)])[bufs.length + 1 - 1]? =
      some (List.replicate (c * k) 0) := by simp
  have hset : (bufs ++ [List.replicate (c * k) (0 : float32)]).set (bufs.length + 1 - 1)
      (List.replicate (c * k) 0) = bufs ++ [List.replicate (c * k) 0] := by simp
  simp only [VertexSlice.grow, if_neg (not_le.mpr hn), h1, VertexSlice.Begin,
    vertexArray.begin, vertexArray.bindVAO, vertexArray.bindVBO, history.Push, gl.GetIntegerv,
    gl.BindVertexArray, gl.BindBuffer, statistic.IncrementVAOBinds, statistic.IncrementVBOBinds,
    VertexSlice.Slice, if_neg hslice, VertexSlice.VertexData, ha, hb]
  rw [vertexData_zero vs.va _ a b k (c * k) hs hab (by simp [gl.boundStore])]
  simp only []
  obtain ⟨st3, h3⟩ := SetVertexData_live
    { vertexArrayBinding := nva + 1, arrayBufferBinding := bufs.length + 1,
      vertexArrays := nva + 1, buffers := bufs ++ [List.replicate (c * k) 0],
      historyVAO := vaoB :: hA, historyVBO := vboB :: hB,
      statistic := { VAOBinds := st1.VAOBinds + 1, VBOBinds := st1.VBOBinds + 1,
                     VertexUpload := st1.VertexUpload, VerticesDrawn := st1.VerticesDrawn,
                     DrawCalls := st1.DrawCalls } }
    { va := { vao := nva + 1, vbo := bufs.length + 1, cap := c,
              format := vs.va.shader.VertexFormat, stride := 4 * (k : Int),
              offset := offset, shader := vs.va.shader },
      i := 0 + 0, j := 0 + vs.Len }
    (List.replicate ((b - a) * k) 0) k 0 (b - a) (List.replicate (c * k) 0)
    rfl hk (by simp) (by simp [hLen]) (Nat.zero_le _) rfl (by simp) hget
    (by simpa using hbac) (by simp)
  simp only [Nat.zero_mul, overwrite_replicate (0 : float32) (c * k) 0 ((b - a) * k)
    (by omega), hset] at h3
  simp only [h3, VertexSlice.End, vertexArray.end_, vertexArray.unbindVAO,
    vertexArray.unbindVBO, history.Pop, gl.BindVertexArray, gl.BindBuffer,
    statistic.IncrementVAOBinds, statistic.IncrementVBOBinds]
  by_cases hv1 : vaoB = 0 <;> by_cases hv2 : vboB = 0 <;>
    simp only [hv1, hv2, ne_eq, not_true_eq_false, not_false_eq_true, if_true, if_false] <;>
    exact ⟨_, c, hcmax, by rw [hs]⟩

theorem SetLen_reuse_any (g : GLState) (vs : VertexSlice) (n : Int)
    (h3 : g.historyVAO ≠ []) (h4 : g.historyVBO ≠ []) (hn : n ≤ vs.Cap) :
    ∃ st, vs.SetLen g n =
      .ok ({ va := vs.va, i := vs.i, j := vs.i + n },
           { g with
             vertexArrayBinding := vs.va.vao
             arrayBufferBinding := vs.va.vbo
             statistic := st }) := by
  rcases g with ⟨vaoB, vboB, nva, bufs, hA, hB, stat⟩
  simp only [] at h3 h4
  cases hA with
  | nil => exact absurd rfl h3
  | cons a A =>
    cases hB with
    | nil => exact absurd rfl h4
    | cons b B =>
      obtain ⟨st1, he⟩ := end_eq vs.va
        { vertexArrayBinding := vaoB, arrayBufferBinding := vboB, vertexArrays := nva,
          buffers := bufs, historyVAO := a :: A, historyVBO := b :: B, statistic := stat }
        a b A B rfl rfl
      simp only [] at he
      simp only [VertexSlice.SetLen, VertexSlice.End, he, VertexSlice.grow, if_pos hn,
        VertexSlice.Begin, vertexArray.begin, vertexArray.bindVAO, vertexArray.bindVBO,
        history.Push, gl.GetIntegerv, gl.BindVertexArray, gl.BindBuffer,
        statistic.IncrementVAOBinds, statistic.IncrementVBOBinds]
      exact ⟨_, rfl⟩

theorem SetLen_reuse (g : GLState) (vs : VertexSlice) (n : Int) (hE : Entered g vs)
    (hn : n ≤ vs.Cap) :
    ∃ st, vs.SetLen g n =
      .ok ({ va := vs.va, i := vs.i, j := vs.i + n }, { g with statistic := st }) := by
  obtain ⟨h1, h2, h3, h4⟩ := hE
  obtain ⟨st, h⟩ := SetLen_reuse_any g vs n h3 h4 hn
  rw [← h1, ← h2] at h
  exact ⟨st, h⟩

theorem SetLen_fresh (g : GLState) (vs : VertexSlice) (n : Int) (k a b : Nat)
    (hV : g.historyVAO ≠ []) (hB : g.historyVBO ≠ [])
    (hW : vs.va.WellFormed) (hs : vs.va.stride = 4 * (k : Int)) (hk : 0 < k)
    (ha : vs.i = a) (hb : vs.j = b) (hab : a ≤ b) (hcap : (b : Int) ≤ vs.va.cap)
    (hn : vs.Cap < n)
    (hfit : max 4 (VertexSlice.growCap vs.Cap n) * vs.va.stride < 9223372036854775808) :
    ∃ (offset : List Int) (st : Statistic) (c : Nat),
      (c : Int) = max 4 (VertexSlice.growCap vs.Cap n) ∧
      vs.SetLen g n =
        .ok ({ va := { vao := g.vertexArrays + 1, vbo := g.buffers.length + 1, cap := c,
                       format := vs.va.shader.VertexFormat, stride := vs.va.stride,
                       offset := offset, shader := vs.va.shader },
               i := 0, j := n },
             { g with
               vertexArrayBinding := g.vertexArrays + 1
               arrayBufferBinding := g.buffers.length + 1
               vertexArrays := g.vertexArrays + 1
               buffers := g.buffers ++ [List.replicate (c * k) 0]
               statistic := st }) := by
  rcases g with ⟨vaoB, vboB, nva, bufs, hA, hB1, stat⟩
  simp only [] at hV hB
  cases hA with
  | nil => exact absurd rfl hV
  | cons x A =>
    cases hB1 with
    | nil => exact absurd rfl hB
    | cons y B =>
      obtain ⟨st1, he⟩ := end_eq vs.va
        { vertexArrayBinding := vaoB, arrayBufferBinding := vboB, vertexArrays := nva,
          buffers := bufs, historyVAO := x :: A, historyVBO := y :: B, statistic := stat }
        x y A B rfl rfl
      simp only [] at he
      obtain ⟨offset, st2, c, hc, hg⟩ := grow_fresh
        { vertexArrayBinding := x, arrayBufferBinding := y, vertexArrays := nva,
          buffers := bufs, historyVAO := A, historyVBO := B, statistic := st1 }
        vs n k a b hW hs hk ha hb hab hcap hn hfit
      simp only [] at hg
      simp only [VertexSlice.SetLen, VertexSlice.End, he, hg,
        VertexSlice.Begin, vertexArray.begin, vertexArray.bindVAO, vertexArray.bindVBO,
        history.Push, gl.GetIntegerv, gl.BindVertexArray, gl.BindBuffer,
        statistic.IncrementVAOBinds, statistic.IncrementVBOBinds]
      exact ⟨offset, _, c, hc, rfl⟩

theorem Slice_va (vs s : VertexSlice) (i j : Int) (h : vs.Slice i j = .ok s) : s.va = vs.va := by
  simp only [VertexSlice.Slice] at h
  split at h
  · cases h
  · cases h; rfl

theorem grow_zero_stride (g : GLState) (vs : VertexSlice) (n : Int)
    (hW : vs.va.WellFormed) (hS : vs.Stride = 0) (hn : vs.Cap < n)
    (r : VertexSlice × GLState) : vs.grow g n ≠ .ok r := by
  intro h
  have hS1 : Int.tdiv (shader.AttrFormat.Size vs.va.shader.VertexFormat) 4 = 0 := by
    rw [← hW.2.1]; exact hS
  have hsz : shader.AttrFormat.Size vs.va.shader.VertexFormat = 0 := by
    obtain ⟨k, hk, _⟩ := size_of_supported _ hW.2.2
    rw [hk, tdiv_four_mul] at hS1
    rw [hk, hS1]; rfl
  obtain ⟨offset, st, h1⟩ :=
    newVertexArray_ok g vs.va.shader (VertexSlice.growCap vs.Cap n) hW.2.2
      (by rw [hsz]; simp)
  simp only [VertexSlice.grow, if_neg (not_le.mpr hn), h1] at h
  split at h
  · cases h
  · rename_i dst hdst
    have hva := Slice_va _ _ _ _ hdst
    split at h
    · cases h
    · simp only [VertexSlice.SetVertexData, VertexSlice.Stride, hva, hS1, if_true] at h
      cases h

theorem SetLen_zero_stride (g : GLState) (vs : VertexSlice) (n : Int)
    (hW : vs.va.WellFormed) (hS : vs.Stride = 0) (hn : vs.Cap < n)
    (r : VertexSlice × GLState) : vs.SetLen g n ≠ .ok r := by
  intro h
  cases hE : vs.End g with
  | error e => simp [VertexSlice.SetLen, hE] at h
  | ok g1 =>
    cases hG : vs.grow g1 n with
    | error e => simp [VertexSlice.SetLen, hE, hG] at h
    | ok r1 => exact grow_zero_stride g1 vs n hW hS hn r1 hG

theorem growCap_eq (c n : Int) (hc : 0 ≤ c)
    (hfit : (if c < 1024 then 2 * c else c + c / 4) < 9223372036854775808) :
    VertexSlice.growCap c n = max n (if c < 1024 then 2 * c else c + c / 4) := by
  have h4 : Int.tdiv c 4 = c / 4 := Int.tdiv_eq_ediv hc (by decide)
  simp only [VertexSlice.growCap, h4]
  by_cases h : c < 1024
  · rw [if_pos h] at hfit
    rw [if_pos h, if_pos h, wrapInt_of_fits _ (by omega) (by omega)]
    omega
  · rw [if_neg h] at hfit
    rw [if_neg h, if_neg h, wrapInt_of_fits _ (by omega) (by omega)]
    omega

/-- Claim C6. Resize without growth.  For an entered slice and `n ≤ Cap()` (the capacity that
remains from the start offset of the slice), `SetLen(n)` returns a slice over the same vertex
array with the same start offset, covering exactly `[i, i + n)`; no vertex array or buffer is
allocated, the contents of all buffers are unchanged, and the bindings and binding histories are
what they were. -/
theorem SetLen_within_capacity (g : GLState) (vs : VertexSlice) (n : Int)
    (hE : Entered g vs) (hn : n ≤ vs.Cap) :
    ∃ vs1 g1, vs.SetLen g n = .ok (vs1, g1) ∧
      vs1.va = vs.va ∧ vs1.i = vs.i ∧ vs1.j = vs.i + n ∧ vs1.Len = n ∧
      g1.buffers = g.buffers ∧ g1.vertexArrays = g.vertexArrays ∧
      g1.vertexArrayBinding = g.vertexArrayBinding ∧
      g1.arrayBufferBinding = g.arrayBufferBinding ∧
      g1.historyVAO = g.historyVAO ∧ g1.historyVBO = g.historyVBO := by
  obtain ⟨st, h⟩ := SetLen_reuse g vs n hE hn
  exact ⟨_, _, h, rfl, rfl, rfl, by simp [VertexSlice.Len], rfl, rfl, rfl, rfl, rfl, rfl⟩

/-- The statement of `SetLen_within_capacity` at `exampleSlice`, entered, with `n = 3`. -/
theorem SetLen_within_capacity_witness :
    Entered exampleEntered exampleSlice ∧ (3 : Int) ≤ exampleSlice.Cap ∧
    ∃ vs1 g1, exampleSlice.SetLen exampleEntered 3 = .ok (vs1, g1) ∧
      vs1.va = exampleSlice.va ∧ vs1.i = exampleSlice.i ∧ vs1.j = exampleSlice.i + 3 ∧
      vs1.Len = 3 ∧
      g1.buffers = exampleEntered.buffers ∧ g1.vertexArrays = exampleEntered.vertexArrays ∧
      g1.vertexArrayBinding = exampleEntered.vertexArrayBinding ∧
      g1.arrayBufferBinding = exampleEntered.arrayBufferBinding ∧
      g1.historyVAO = exampleEntered.historyVAO ∧ g1.historyVBO = exampleEntered.historyVBO :=
  ⟨by decide, by decide,
    SetLen_within_capacity exampleEntered exampleSlice 3 (by decide) (by decide)⟩

theorem Begin_entered (g : GLState) (vs : VertexSlice) : Entered (vs.Begin g) vs := by
  obtain ⟨st, h⟩ := begin_eq vs.va g
  rw [VertexSlice.Begin, h]
  exact ⟨rfl, rfl, by simp, by simp⟩

theorem growCap_fits (c n stride : Int) (k : Nat) (hc : 0 ≤ c) (hs : stride = 4 * (k : Int))
    (hk : 0 < k)
    (hfit : max 4 (max n (if c < 1024 then 2 * c else c + c / 4)) * stride <
      9223372036854775808) :
    VertexSlice.growCap c n = max n (if c < 1024 then 2 * c else c + c / 4) := by
  apply growCap_eq _ _ hc
  generalize (if c < 1024 then 2 * c else c + c / 4) = X at hfit ⊢
  have h1 : max 4 (max n X) ≤ max 4 (max n X) * stride :=
    le_mul_of_one_le_right (by omega) (by rw [hs]; omega)
  omega

theorem SetLen_grows (g : GLState) (vs : VertexSlice) (n : Int)
    (hE : Entered g vs) (hW : vs.va.WellFormed) (hI : vs.Inv) (hn : vs.Cap < n)
    (hfit : GrowthFits vs n) :
    (vs.Stride ≠ 0 → ∃ r, vs.SetLen g n = .ok r) ∧
    ∀ vs1 g1, vs.SetLen g n = .ok (vs1, g1) →
      vs1.va.cap = max 4 (max n (if vs.Cap < 1024 then 2 * vs.Cap else vs.Cap + vs.Cap / 4)) ∧
      vs1.i = 0 ∧ vs1.j = n ∧ n ≤ vs1.va.cap ∧ (vs.Cap < 1024 → 2 * vs.Cap ≤ vs1.va.cap) ∧
      vs1.va.vbo = g.buffers.length + 1 ∧ vs1.va.vao = g.vertexArrays + 1 ∧
      g1.vertexArrays = g.vertexArrays + 1 ∧
      g1.buffers.length = g.buffers.length + 1 ∧
      (∀ m : Nat, m < g.buffers.length → g1.buffers[m]? = g.buffers[m]?) ∧
      Live g1 vs1.va ∧ Entered g1 vs1 ∧ vs1.va.WellFormed := by
  obtain ⟨k, hk, _⟩ := size_of_supported _ hW.2.2
  have hs : vs.va.stride = 4 * (k : Int) := by rw [hW.2.1, hk]
  have hS : vs.Stride = k := by simp [VertexSlice.Stride, hs, tdiv_four_mul]
  by_cases hk0 : k = 0
  · subst hk0
    have hS0 : vs.Stride = 0 := by simpa using hS
    refine ⟨fun h => absurd hS0 h, ?_⟩
    intro vs1 g1 h
    exact absurd h (SetLen_zero_stride g vs n hW hS0 hn _)
  · obtain ⟨h0, h1, h2⟩ := hI
    obtain ⟨a, ha⟩ := Int.eq_ofNat_of_zero_le h0
    obtain ⟨b, hb⟩ := Int.eq_ofNat_of_zero_le (le_trans h0 h1)
    have hcap0 : 0 ≤ vs.Cap := by rw [VertexSlice.Cap]; omega
    have hg := growCap_fits vs.Cap n vs.va.stride k hcap0 hs (Nat.pos_of_ne_zero hk0) hfit
    obtain ⟨offset, st, c, hc, h⟩ := SetLen_fresh g vs n k a b hE.2.2.1 hE.2.2.2 hW hs
      (Nat.pos_of_ne_zero hk0) ha hb (by omega) (by omega) hn (by rw [hg]; exact hfit)
    refine ⟨fun _ => ⟨_, h⟩, ?_⟩
    intro vs1 g1 h1
    rw [h] at h1
    cases h1
    have hc2 := hc
    rw [hg] at hc2
    refine ⟨hc2, rfl, rfl, ?_, ?_, rfl, rfl, rfl, by simp, ?_, ?_, ?_, ?_⟩
    · simp only []; rw [hc2]; omega
    · intro hlt; simp only []; rw [hc2, if_pos hlt]; omega
    · intro m hm
      simp only []
      rw [List.getElem?_append_left hm]
    · refine ⟨by simp, ?_⟩
      simp [hs, tdiv_four_mul]
    · exact ⟨rfl, rfl, hE.2.2.1, hE.2.2.2⟩
    · exact ⟨rfl, hW.2.1, hW.2.2⟩

theorem make_then_SetLen (g0 : GLState) (shdr : shader.Shader) (cap n : Int)
    (hs : Supported shdr.VertexFormat) (hne : shdr.VertexFormat ≠ [])
    (hcap : 4 ≤ cap) (hn : cap < n)
    (hfit : max 4 (max n (if cap < 1024 then 2 * cap else cap + cap / 4)) *
      shader.AttrFormat.Size shdr.VertexFormat < 9223372036854775808) :
    ∃ v g1 v1 g2, MakeVertexSlice g0 shdr 0 cap = .ok (v, g1) ∧ v.Cap = cap ∧
      v.SetLen (v.Begin g1) n = .ok (v1, g2) ∧
      v1.va.cap = max 4 (max n (if cap < 1024 then 2 * cap else cap + cap / 4)) := by
  have hc : (if cap < vertexArrayMinCap then vertexArrayMinCap else cap) = cap := by
    simp only [vertexArrayMinCap]; omega
  have hle : cap * shader.AttrFormat.Size shdr.VertexFormat ≤
      max 4 (max n (if cap < 1024 then 2 * cap else cap + cap / 4)) *
        shader.AttrFormat.Size shdr.VertexFormat :=
    Int.mul_le_mul_of_nonneg_right (by omega) (size_nonneg _ hs)
  obtain ⟨offset, st, hm⟩ := MakeVertexSlice_ok g0 shdr 0 cap hs (by omega)
    (by rw [hc]; omega)
  rw [hc] at hm
  obtain ⟨k, hk, hpos⟩ := size_of_supported _ hs
  have hW : vertexArray.WellFormed
      { vao := g0.vertexArrays + 1, vbo := g0.buffers.length + 1, cap := cap,
        format := shdr.VertexFormat, stride := shader.AttrFormat.Size shdr.VertexFormat,
        offset := offset, shader := shdr } := ⟨rfl, rfl, hs⟩
  have hI : VertexSlice.Inv
      { va := { vao := g0.vertexArrays + 1, vbo := g0.buffers.length + 1, cap := cap,
                format := shdr.VertexFormat, stride := shader.AttrFormat.Size shdr.VertexFormat,
                offset := offset, shader := shdr },
        i := 0, j := 0 } := ⟨le_refl _, le_refl _, by simp only []; omega⟩
  have hS : VertexSlice.Stride
      { va := { vao := g0.vertexArrays + 1, vbo := g0.buffers.length + 1, cap := cap,
                format := shdr.VertexFormat, stride := shader.AttrFormat.Size shdr.VertexFormat,
                offset := offset, shader := shdr },
        i := 0, j := 0 } ≠ 0 := by
    have := hpos hne
    simp only [VertexSlice.Stride, hk, tdiv_four_mul]
    omega
  have hC : VertexSlice.Cap
      { va := { vao := g0.vertexArrays + 1, vbo := g0.buffers.length + 1, cap := cap,
                format := shdr.VertexFormat, stride := shader.AttrFormat.Size shdr.VertexFormat,
                offset := offset, shader := shdr },
        i := 0, j := 0 } = cap := by simp [VertexSlice.Cap]
  have key : ∃ v g1, MakeVertexSlice g0 shdr 0 cap = .ok (v, g1) ∧ v.va.WellFormed ∧ v.Inv ∧
      v.Stride ≠ 0 ∧ v.Cap = cap ∧
      v.va.stride = shader.AttrFormat.Size shdr.VertexFormat :=
    ⟨_, _, hm, hW, hI, hS, hC, rfl⟩
  obtain ⟨v, g1, hm1, hW1, hI1, hS1, hC1, hst1⟩ := key
  have h := SetLen_grows (v.Begin g1) v n (Begin_entered g1 v) hW1 hI1 (by rw [hC1]; exact hn)
    (by rw [GrowthFits, hC1, hst1]; exact hfit)
  obtain ⟨⟨v1, g2⟩, hr⟩ := h.1 hS1
  have h2 := (h.2 v1 g2 hr).1
  rw [hC1] at h2
  exact ⟨v, g1, v1, g2, hm1, hC1, hr, h2⟩

/-- Claim C5, amended. Growth capacity.  For an entered, well-formed slice satisfying the view
invariant `0 ≤ i ≤ j ≤ capacity` (so of non-negative length), with remaining capacity
`c = Cap()`, and `n > c` such that the new store fits a Go `int` (`GrowthFits`: its capacity times
the stride in bytes is below `2^63`): `SetLen(n)` returns whenever `Stride()` is not zero, and
whenever it returns it has allocated a fresh vertex array and buffer, next to the existing ones,
of capacity `max(4, newCap)`, where `newCap` is `2 * c` if `c < 1024` and `c + c / 4` otherwise,
replaced by `n` if that is smaller than `n`; the resized slice covers `[0, n)` of it and is the
entered one.  So the capacity is at least `n`, and at least `2 * c` when `c < 1024`.  For every
shader with a supported, non-empty format of which 8, respectively 2500, vertices fit,
`MakeVertexSlice(0, 4)` then `SetLen(5)` gives capacity 8, and `MakeVertexSlice(0, 2000)` then
`SetLen(2500)` gives 2500. -/
theorem SetLen_growth_capacity (g : GLState) (vs : VertexSlice) (n : Int)
    (hE : Entered g vs) (hW : vs.va.WellFormed) (hI : vs.Inv) (hn : vs.Cap < n)
    (hfit : GrowthFits vs n) :
    ((vs.Stride ≠ 0 → ∃ r, vs.SetLen g n = .ok r) ∧
     ∀ vs1 g1, vs.SetLen g n = .ok (vs1, g1) →
      vs1.va.cap = max 4 (max n (if vs.Cap < 1024 then 2 * vs.Cap else vs.Cap + vs.Cap / 4)) ∧
      vs1.i = 0 ∧ vs1.j = n ∧ n ≤ vs1.va.cap ∧ (vs.Cap < 1024 → 2 * vs.Cap ≤ vs1.va.cap) ∧
      vs1.va.vbo = g.buffers.length + 1 ∧ vs1.va.vao = g.vertexArrays + 1 ∧
      g1.vertexArrays = g.vertexArrays + 1 ∧
      g1.buffers.length = g.buffers.length + 1 ∧
      (∀ m : Nat, m < g.buffers.length → g1.buffers[m]? = g.buffers[m]?) ∧
      Live g1 vs1.va ∧ Entered g1 vs1 ∧ vs1.va.WellFormed) ∧
    (∀ (g0 : GLState) (shdr : shader.Shader),
      Supported shdr.VertexFormat → shdr.VertexFormat ≠ [] →
      8 * shader.AttrFormat.Size shdr.VertexFormat < 9223372036854775808 →
      ∃ v g1 v1 g2, MakeVertexSlice g0 shdr 0 4 = .ok (v, g1) ∧ v.Cap = 4 ∧
        v.SetLen (v.Begin g1) 5 = .ok (v1, g2) ∧ v1.va.cap = 8) ∧
    (∀ (g0 : GLState) (shdr : shader.Shader),
      Supported shdr.VertexFormat → shdr.VertexFormat ≠ [] →
      2500 * shader.AttrFormat.Size shdr.VertexFormat < 9223372036854775808 →
      ∃ v g1 v1 g2, MakeVertexSlice g0 shdr 0 2000 = .ok (v, g1) ∧ v.Cap = 2000 ∧
        v.SetLen (v.Begin g1) 2500 = .ok (v1, g2) ∧ v1.va.cap = 2500) := by
  refine ⟨SetLen_grows g vs n hE hW hI hn hfit, ?_, ?_⟩
  · intro g0 shdr hs hne hsz
    obtain ⟨v, g1, v1, g2, h1, h2, h3, h4⟩ :=
      make_then_SetLen g0 shdr 4 5 hs hne (by decide) (by decide) hsz
    exact ⟨v, g1, v1, g2, h1, h2, h3, by rw [h4]; decide⟩
  · intro g0 shdr hs hne hsz
    obtain ⟨v, g1, v1, g2, h1, h2, h3, h4⟩ :=
      make_then_SetLen g0 shdr 2000 2500 hs hne (by decide) (by decide) hsz
    exact ⟨v, g1, v1, g2, h1, h2, h3, by rw [h4]; decide⟩

/-- The statement of `SetLen_growth_capacity` at `exampleSlice`, entered, with `n = 5`: the
capacity 4 doubles to 8. -/
theorem SetLen_growth_capacity_witness :
    Entered exampleEntered exampleSlice ∧ exampleSlice.va.WellFormed ∧ exampleSlice.Inv ∧
    exampleSlice.Cap < 5 ∧ GrowthFits exampleSlice 5 ∧
    ∃ vs1 g1, exampleSlice.SetLen exampleEntered 5 = .ok (vs1, g1) ∧ vs1.va.cap = 8 ∧
      vs1.i = 0 ∧ vs1.j = 5 := by
  have h := (SetLen_growth_capacity exampleEntered exampleSlice 5
    (by decide) (by decide) (by decide) (by decide) (by decide)).1
  obtain ⟨⟨vs1, g1⟩, hr⟩ := h.1 (by decide)
  obtain ⟨h1, h2, h3, _⟩ := h.2 vs1 g1 hr
  exact ⟨by decide, by decide, by decide, by decide, by decide, vs1, g1, hr,
    by rw [h1]; decide, h2, h3⟩

/-- Claim C5 as stated fails.  `MakeVertexSlice(floatShader, -1, 4)` returns a slice of length
`-1`; entered, with `n = 5` above its capacity 4, `SetLen(5)` panics in `grow`, where
`Slice(0, vs.Len())` is out of range.  And for `exampleSlice`, entered, with `n = 2^61` above its
capacity 4, `SetLen(n)` panics in `newVertexArray`, where the byte size `n * 4` wraps to
`-2^63`.  In neither case is a store allocated for the slice. -/
theorem SetLen_growth_panics :
    (∃ v g1, MakeVertexSlice emptyContext floatShader (-1) 4 = .ok (v, g1) ∧
      v.Len = -1 ∧ Entered (v.Begin g1) v ∧ v.Cap < 5 ∧
      v.SetLen (v.Begin g1) 5 = .error .indexOutOfRange) ∧
    (Entered exampleEntered exampleSlice ∧ exampleSlice.Cap < 2305843009213693952 ∧
      exampleSlice.SetLen exampleEntered 2305843009213693952 = .error .makesliceLen) :=
  ⟨⟨_, _, rfl, rfl, by decide, by decide, rfl⟩, by decide, by decide, rfl⟩

/-- The statement of `Slice_SetVertexData_aliasing` at `exampleSlice`, entered, for the sub-slice
`Slice(1, 2)` and data `[7]`. -/
theorem Slice_SetVertexData_aliasing_witness :
    Entered exampleEntered exampleSlice ∧ Live exampleEntered exampleSlice.va ∧
    exampleSlice.va.WellFormed ∧ exampleSlice.Inv ∧ (0 : Int) ≤ 1 ∧ (1 : Int) ≤ 2 ∧
    (2 : Int) ≤ exampleSlice.Len ∧
    (([7] : List float32).length : Int) = (2 - 1) * exampleSlice.Stride ∧
    ∃ s g1 new, exampleSlice.Slice 1 2 = .ok s ∧ s.SetVertexData exampleEntered [7] = .ok g1 ∧
      exampleSlice.VertexData g1 = .ok new ∧ (new.drop 1).take 1 = [7] := by
  obtain ⟨s, h1, _, _, h2, h3⟩ := Slice_SetVertexData_aliasing exampleEntered exampleSlice 1 2 [7]
    (by decide) (by decide) (by decide) (by decide) (by decide) (by decide) (by decide)
    (by decide)
  obtain ⟨g1, hg1⟩ := h2 (by decide)
  obtain ⟨old, new, _, hnew, _, hd, _⟩ := h3 g1 hg1
  exact ⟨by decide, by decide, by decide, by decide, by decide, by decide, by decide, by decide,
    s, g1, new, h1, hg1, hnew, hd⟩

/-! ## Where the code departs from its documentation -/

theorem SetLen_growth_reads_zeros (g : GLState) (vs : VertexSlice) (n : Int)
    (hE : Entered g vs) (hW : vs.va.WellFormed) (hI : vs.Inv) (hS : vs.Stride ≠ 0)
    (hn : vs.Cap < n) (hfit : GrowthFits vs n) :
    ∃ vs1 g1, vs.SetLen g n = .ok (vs1, g1) ∧
      vs1.VertexData g1 = .ok (List.replicate (n * vs.Stride).toNat 0) := by
  obtain ⟨k, hk, _⟩ := size_of_supported _ hW.2.2
  have hs : vs.va.stride = 4 * (k : Int) := by rw [hW.2.1, hk]
  have hSk : vs.Stride = k := by simp [VertexSlice.Stride, hs, tdiv_four_mul]
  have hk0 : 0 < k := by rw [hSk] at hS; omega
  obtain ⟨h0, h1, h2⟩ := hI
  obtain ⟨a, ha⟩ := Int.eq_ofNat_of_zero_le h0
  obtain ⟨b, hb⟩ := Int.eq_ofNat_of_zero_le (le_trans h0 h1)
  have hn0 : 0 ≤ n := by rw [VertexSlice.Cap] at hn; omega
  obtain ⟨m, hm⟩ := Int.eq_ofNat_of_zero_le hn0
  have hcap0 : 0 ≤ vs.Cap := by rw [VertexSlice.Cap]; omega
  have hg := growCap_fits vs.Cap n vs.va.stride k hcap0 hs hk0 hfit
  obtain ⟨offset, st, c, hc, h⟩ := SetLen_fresh g vs n k a b hE.2.2.1 hE.2.2.2 hW hs
    hk0 ha hb (by omega) (by omega) hn (by rw [hg]; exact hfit)
  refine ⟨_, _, h, ?_⟩
  have hz := vertexData_zero
    { vao := g.vertexArrays + 1, vbo := g.buffers.length + 1, cap := c,
      format := vs.va.shader.VertexFormat, stride := vs.va.stride,
      offset := offset, shader := vs.va.shader }
    { g with
      vertexArrayBinding := g.vertexArrays + 1
      arrayBufferBinding := g.buffers.length + 1
      vertexArrays := g.vertexArrays + 1
      buffers := g.buffers ++ [List.replicate (c * k) 0]
      statistic := st } 0 m k (c * k) hs (Nat.zero_le _) (by simp [gl.boundStore])
  have hlen : (n * vs.Stride).toNat = (m - 0) * k := by
    rw [hm, hSk]; exact_mod_cast Int.toNat_ofNat (m * k)
  rw [hlen, ← hz, VertexSlice.VertexData, hm]
  rfl

/-- Claim C4. The code at a failing input: the slice `exampleSlice` (length 2, capacity 4, one
`float32` per vertex), made by `MakeVertexSlice` and entered by `Begin`, is given the data `[5, 6]`, which `VertexData()` reads back, and is then
resized with `SetLen(5)`, which exceeds the capacity and allocates a new vertex array.
`VertexData()` of the resized slice is all zeros: its first two elements are not `[5, 6]`. -/
theorem SetLen_growth_discards_content :
    MakeVertexSlice emptyContext floatShader 2 4 = .ok (exampleSlice, exampleMade) ∧
    exampleSlice.Begin exampleMade = exampleEntered ∧
    ∃ g1 vs2 g2, exampleSlice.SetVertexData exampleEntered [5, 6] = .ok g1 ∧
      exampleSlice.VertexData g1 = .ok [5, 6] ∧ exampleSlice.Cap < 5 ∧
      exampleSlice.SetLen g1 5 = .ok (vs2, g2) ∧
      vs2.VertexData g2 = .ok [0, 0, 0, 0, 0] :=
  ⟨rfl, rfl, _, _, _, rfl, rfl, by decide, rfl, rfl⟩

theorem Inv_of_MakeVertexSlice (g g1 : GLState) (shdr : shader.Shader) (len cap : Int)
    (vs : VertexSlice) (h : MakeVertexSlice g shdr len cap = .ok (vs, g1)) (h0 : 0 ≤ len) :
    vs.Inv := by
  obtain ⟨h1, h2, h3, h4⟩ := MakeVertexSlice_shape _ _ _ _ _ _ h
  refine ⟨by rw [h1], by rw [h1, h2]; exact h0, ?_⟩
  rw [h2, h4]
  simp only [vertexArrayMinCap]
  omega

theorem Inv_of_Slice (vs : VertexSlice) (a b : Int) (hI : vs.Inv) (ha : 0 ≤ a) (hab : a ≤ b)
    (hb : b ≤ vs.Cap) : ∃ s, vs.Slice a b = .ok s ∧ s.Inv := by
  obtain ⟨h0, h1, h2⟩ := hI
  rw [VertexSlice.Cap] at hb
  refine ⟨{ va := vs.va, i := vs.i + a, j := vs.i + b }, ?_, ?_⟩
  · simp only [VertexSlice.Slice]
    rw [if_neg (by omega)]
  · exact ⟨by simp only []; omega, by simp only []; omega, by simp only []; omega⟩

theorem Inv_of_SetLen (g g1 : GLState) (vs vs1 : VertexSlice) (n : Int) (hE : Entered g vs)
    (hW : vs.va.WellFormed) (hI : vs.Inv) (h0 : 0 ≤ n) (hfit : vs.Cap < n → GrowthFits vs n)
    (h : vs.SetLen g n = .ok (vs1, g1)) : vs1.Inv := by
  by_cases hn : n ≤ vs.Cap
  · obtain ⟨st, hr⟩ := SetLen_reuse g vs n hE hn
    rw [hr] at h
    cases h
    obtain ⟨i0, i1, i2⟩ := hI
    rw [VertexSlice.Cap] at hn
    exact ⟨i0, by simp only []; omega, by simp only []; omega⟩
  · obtain ⟨_, h2, h3, h4, _⟩ :=
      (SetLen_grows g vs n hE hW hI (not_le.mp hn) (hfit (not_le.mp hn))).2 vs1 g1 h
    exact ⟨by rw [h2], by rw [h2, h3]; exact h0, by rw [h3]; exact h4⟩

theorem SetLen_negative_length :
    ∃ vs1 g1, exampleSlice.SetLen exampleEntered (-1) = .ok (vs1, g1) ∧
      vs1.i = 0 ∧ vs1.j = -1 ∧ ¬ vs1.Inv :=
  ⟨_, _, rfl, rfl, rfl, by decide⟩

/-- Claim C3. The code at a failing input: `MakeVertexSlice(floatShader, 2, 4)` satisfies the view
invariant and so does its sub-slice `Slice(2, 4)`, which covers `[2, 4)`; slicing that one with
`Slice(0, 4)` passes the range check, which compares the relative end `4` with the capacity `4`
of the vertex array, and returns a slice covering `[2, 6)`, beyond the capacity. -/
theorem Slice_breaks_invariant :
    ∃ v g1 s t, MakeVertexSlice emptyContext floatShader 2 4 = .ok (v, g1) ∧ v.Inv ∧
      v.Slice 2 4 = .ok s ∧ s.Inv ∧
      s.Slice 0 4 = .ok t ∧ t.i = 2 ∧ t.j = 6 ∧ t.va.cap = 4 ∧ ¬ t.Inv :=
  ⟨_, _, _, _, rfl, by decide, rfl, by decide, rfl, rfl, rfl, rfl, by decide⟩

/-- Claim C7. The code at a failing input: a slice of length 1 for the single-`Vec2` shader, so
`Stride()` is 2, is given 3 values.  3 is neither a multiple of the stride nor equal to
`Len() * Stride()`, yet `SetVertexData` returns, because the truncating division `3 / 2` equals
`Len()`, and it writes all 3 values: the third lands in the vertex after the slice. -/
theorem SetVertexData_accepts_wrong_length :
    ∃ v g1 g2, MakeVertexSlice emptyContext vec2Shader 1 4 = .ok (v, g1) ∧
      v.Stride = 2 ∧ v.Len = 1 ∧ (3 : Int) % v.Stride ≠ 0 ∧ (3 : Int) ≠ v.Len * v.Stride ∧
      v.SetVertexData (v.Begin g1) [7, 8, 9] = .ok g2 ∧
      storeOf (v.Begin g1) v.va = [0, 0, 0, 0, 0, 0, 0, 0] ∧
      storeOf g2 v.va = [7, 8, 9, 0, 0, 0, 0, 0] :=
  ⟨_, _, _, rfl, rfl, rfl, by decide, by decide, rfl, rfl, rfl⟩

/-! ## Balance of the binding histories -/

theorem unbindVBO_ok (va : vertexArray) (g g1 : GLState) (h : va.unbindVBO g = .ok g1) :
    ∃ b B st, g.historyVBO = b :: B ∧
      g1 = { g with arrayBufferBinding := b, historyVBO := B, statistic := st } := by
  rcases g with ⟨vaoB, vboB, nva, bufs, hA, hB, stat⟩
  cases hB with
  | nil => simp [vertexArray.unbindVBO, history.Pop] at h
  | cons b B =>
    simp only [vertexArray.unbindVBO, history.Pop, gl.BindBuffer,
      statistic.IncrementVBOBinds] at h
    by_cases hb : b = 0
    · simp only [hb, ne_eq, not_true_eq_false, if_false, Except.ok.injEq] at h
      exact ⟨b, B, _, rfl, by rw [← h, hb]⟩
    · simp only [hb, ne_eq, not_false_eq_true, if_true, Except.ok.injEq] at h
      exact ⟨b, B, _, rfl, by rw [← h]⟩

theorem unbindVAO_ok (va : vertexArray) (g g1 : GLState) (h : va.unbindVAO g = .ok g1) :
    ∃ a A st, g.historyVAO = a :: A ∧
      g1 = { g with vertexArrayBinding := a, historyVAO := A, statistic := st } := by
  rcases g with ⟨vaoB, vboB, nva, bufs, hA, hB, stat⟩
  cases hA with
  | nil => simp [vertexArray.unbindVAO, history.Pop] at h
  | cons a A =>
    simp only [vertexArray.unbindVAO, history.Pop, gl.BindVertexArray,
      statistic.IncrementVAOBinds] at h
    by_cases ha : a = 0
    · simp only [ha, ne_eq, not_true_eq_false, if_false, Except.ok.injEq] at h
      exact ⟨a, A, _, rfl, by rw [← h, ha]⟩
    · simp only [ha, ne_eq, not_false_eq_true, if_true, Except.ok.injEq] at h
      exact ⟨a, A, _, rfl, by rw [← h]⟩

theorem end_ok (va : vertexArray) (g g1 : GLState) (h : va.end_ g = .ok g1) :
    ∃ a b A B, g.historyVAO = a :: A ∧ g.historyVBO = b :: B ∧ bindings g1 = (a, b, A, B) := by
  cases hV : va.unbindVBO g with
  | error e => simp [vertexArray.end_, hV] at h
  | ok g2 =>
    simp only [vertexArray.end_, hV] at h
    obtain ⟨b, B, st, hB, h2⟩ := unbindVBO_ok va g g2 hV
    obtain ⟨a, A, st1, hA, h1⟩ := unbindVAO_ok va g2 g1 h
    subst h2
    subst h1
    exact ⟨a, b, A, B, hA, hB, rfl⟩

theorem endDraw_ok (va : vertexArray) (g g1 : GLState) (h : va.endDraw g = .ok g1) :
    ∃ a A, g.historyVAO = a :: A ∧
      bindings g1 = (a, g.arrayBufferBinding, A, g.historyVBO) := by
  obtain ⟨a, A, st1, hA, h1⟩ := unbindVAO_ok va g g1 h
  subst h1
  exact ⟨a, A, hA, rfl⟩

theorem BufferSubData_bindings (g : GLState) (offset size : Int) (data : List float32) :
    bindings (gl.BufferSubData g offset size data) = bindings g := by
  unfold gl.BufferSubData
  split
  · rfl
  · split <;> rfl

theorem SetVertexData_bindings (vs : VertexSlice) (g g1 : GLState) (d : List float32)
    (h : vs.SetVertexData g d = .ok g1) : bindings g1 = bindings g := by
  simp only [VertexSlice.SetVertexData, vertexArray.setVertexData] at h
  split at h
  · cases h
  · split at h
    · cases h
    · split at h
      · cases h; rfl
      · split at h
        · cases h
        · cases h
          rw [BufferSubData_bindings]
          rfl

theorem newVertexArray_bindings (g g1 : GLState) (shdr : shader.Shader) (cap : Int)
    (va : vertexArray) (h : newVertexArray g shdr cap = .ok (va, g1)) :
    bindings g1 = bindings g := by
  cases ho : attrOffsets shdr.VertexFormat 0 with
  | none => simp [newVertexArray, ho] at h
  | some offset =>
    simp only [newVertexArray, ho, gl.GenVertexArrays, gl.GenBuffers, vertexArray.bindVAO,
      vertexArray.bindVBO, vertexArray.unbindVAO, vertexArray.unbindVBO, history.Push,
      history.Pop, gl.GetIntegerv, gl.BindVertexArray, gl.BindBuffer, gl.BufferData,
      gl.boundStore, statistic.IncrementVAOBinds, statistic.IncrementVBOBinds] at h
    generalize (if cap < vertexArrayMinCap then vertexArrayMinCap else cap) = C at h
    split at h
    · cases h
    · by_cases h1 : g.arrayBufferBinding = 0 <;> by_cases h2 : g.vertexArrayBinding = 0 <;>
        simp [h1, h2] at h <;> obtain ⟨_, h⟩ := h <;> subst h <;> simp [bindings, h1, h2]

theorem begin_bindings (va : vertexArray) (g : GLState) :
    bindings (va.begin g) =
      (va.vao, va.vbo, g.vertexArrayBinding :: g.historyVAO,
        g.arrayBufferBinding :: g.historyVBO) := rfl

theorem beginDraw_bindings (va : vertexArray) (g : GLState) :
    bindings (va.beginDraw g) =
      (va.vao, g.arrayBufferBinding, g.vertexArrayBinding :: g.historyVAO, g.historyVBO) := rfl

theorem bindings_eq (g g1 : GLState) (h : bindings g1 = bindings g) :
    g1.vertexArrayBinding = g.vertexArrayBinding ∧ g1.arrayBufferBinding = g.arrayBufferBinding ∧
      g1.historyVAO = g.historyVAO ∧ g1.historyVBO = g.historyVBO := by
  simp only [bindings, Prod.mk.injEq] at h
  exact h

theorem grow_bindings (vs vs1 : VertexSlice) (g g1 : GLState) (n : Int)
    (h : vs.grow g n = .ok (vs1, g1)) : bindings g1 = bindings g := by
  unfold VertexSlice.grow at h
  split at h
  · cases h; rfl
  · cases hv : newVertexArray g vs.va.shader (VertexSlice.growCap vs.Cap n) with
    | error e => simp [hv] at h
    | ok r =>
      obtain ⟨va, g2⟩ := r
      have hb2 := newVertexArray_bindings g g2 _ _ va hv
      simp only [hv] at h
      split at h
      · cases h
      · split at h
        · cases h
        · split at h
          · cases h
          · rename_i g3 hset
            split at h
            · cases h
            · rename_i g4 hend
              cases h
              have hb3 := SetVertexData_bindings _ _ _ _ hset
              obtain ⟨a, b, A, B, hA, hB, hb4⟩ := end_ok _ _ _ hend
              obtain ⟨_, _, e3, e4⟩ := bindings_eq _ _ hb3
              rw [VertexSlice.Begin, begin_bindings] at hb3
              obtain ⟨e1, e2, e3, e4⟩ := bindings_eq _ _ hb2
              simp only [bindings, Prod.mk.injEq] at hb3 hb4 ⊢
              obtain ⟨_, _, f3, f4⟩ := hb3
              rw [hA] at f3
              rw [hB] at f4
              cases f3
              cases f4
              obtain ⟨k1, k2, k3, k4⟩ := hb4
              exact ⟨by rw [k1, e1], by rw [k2, e2], by rw [k3, e3], by rw [k4, e4]⟩

theorem SetLen_histories (vs vs1 : VertexSlice) (g g1 : GLState) (n : Int)
    (h : vs.SetLen g n = .ok (vs1, g1)) :
    g1.historyVAO = g.historyVAO ∧ g1.historyVBO = g.historyVBO := by
  cases hE : vs.End g with
  | error e => simp [VertexSlice.SetLen, hE] at h
  | ok g2 =>
    cases hG : vs.grow g2 n with
    | error e => simp [VertexSlice.SetLen, hE, hG] at h
    | ok r =>
      obtain ⟨vs2, g3⟩ := r
      simp only [VertexSlice.SetLen, hE, hG, Except.ok.injEq, Prod.mk.injEq] at h
      obtain ⟨hvs, hg⟩ := h
      subst hg
      obtain ⟨a, b, A, B, hA, hB, hb2⟩ := end_ok _ _ _ hE
      have hb3 := grow_bindings _ _ _ _ _ hG
      rw [hb2] at hb3
      simp only [bindings, Prod.mk.injEq] at hb3
      obtain ⟨k1, k2, k3, k4⟩ := hb3
      have hbb := begin_bindings vs2.va g3
      simp only [bindings, Prod.mk.injEq] at hbb
      rw [VertexSlice.Begin, hbb.2.2.1, hbb.2.2.2, hA, hB, k1, k2, k3, k4]
      exact ⟨rfl, rfl⟩

theorem runCalls_append (g g2 : GLState) (xs ys : List Call)
    (h : runCalls g (xs ++ ys) = .ok g2) :
    ∃ g1, runCalls g xs = .ok g1 ∧ runCalls g1 ys = .ok g2 := by
  induction xs generalizing g with
  | nil => exact ⟨g, rfl, h⟩
  | cons c cs ih =>
    simp only [List.cons_append, runCalls] at h ⊢
    cases hc : c.run g with
    | error e => simp [hc] at h
    | ok g1 =>
      simp only [hc] at h ⊢
      exact ih g1 h

theorem runCalls_append_ok (g g1 g2 : GLState) (xs ys : List Call)
    (h1 : runCalls g xs = .ok g1) (h2 : runCalls g1 ys = .ok g2) :
    runCalls g (xs ++ ys) = .ok g2 := by
  induction xs generalizing g with
  | nil => cases h1; exact h2
  | cons c cs ih =>
    simp only [List.cons_append, runCalls] at h1 ⊢
    cases hc : c.run g with
    | error e => simp [hc] at h1
    | ok g3 =>
      simp only [hc] at h1 ⊢
      exact ih g3 h1

theorem nested_bindings (b : Bool) (cs : List Call) (hN : Nested b cs) :
    ∀ g g1, runCalls g cs = .ok g1 →
      g1.historyVAO = g.historyVAO ∧ g1.historyVBO = g.historyVBO ∧
      (b = false → g1.vertexArrayBinding = g.vertexArrayBinding ∧
        g1.arrayBufferBinding = g.arrayBufferBinding) := by
  induction hN with
  | nil b =>
    intro g g1 h
    cases h
    exact ⟨rfl, rfl, fun _ => ⟨rfl, rfl⟩⟩
  | resize vs len rest _ ih =>
    intro g g1 h
    simp only [runCalls, Call.run] at h
    cases hS : vs.SetLen g len with
    | error e => simp [hS] at h
    | ok r =>
      obtain ⟨vs2, g2⟩ := r
      simp only [hS] at h
      obtain ⟨k1, k2⟩ := SetLen_histories _ _ _ _ _ hS
      obtain ⟨i1, i2, _⟩ := ih g2 g1 h
      exact ⟨by rw [i1, k1], by rw [i2, k2], fun hb => by cases hb⟩
  | scope b v w body rest _ _ ihb ihr =>
    intro g g1 h
    simp only [runCalls, Call.run] at h
    obtain ⟨g2, hbody, h2⟩ := runCalls_append _ _ _ _ h
    simp only [runCalls, Call.run] at h2
    cases hE : w.End g2 with
    | error e => simp [hE] at h2
    | ok g3 =>
      simp only [hE] at h2
      obtain ⟨i1, i2, _⟩ := ihb _ _ hbody
      obtain ⟨x, y, X, Y, hX, hY, hb3⟩ := end_ok _ _ _ hE
      have hbb := begin_bindings v.va g
      simp only [bindings, Prod.mk.injEq] at hbb hb3
      rw [VertexSlice.Begin, hbb.2.2.1, hX] at i1
      rw [VertexSlice.Begin, hbb.2.2.2, hY] at i2
      cases i1
      cases i2
      obtain ⟨j1, j2, j3⟩ := ihr _ _ h2
      refine ⟨by rw [j1, hb3.2.2.1], by rw [j2, hb3.2.2.2], fun hb => ?_⟩
      obtain ⟨j4, j5⟩ := j3 hb
      exact ⟨by rw [j4, hb3.1], by rw [j5, hb3.2.1]⟩
  | drawScope b v w body rest _ _ ihb ihr =>
    intro g g1 h
    simp only [runCalls, Call.run] at h
    obtain ⟨g2, hbody, h2⟩ := runCalls_append _ _ _ _ h
    simp only [runCalls, Call.run] at h2
    cases hE : w.EndDraw g2 with
    | error e => simp [hE] at h2
    | ok g3 =>
      simp only [hE] at h2
      obtain ⟨i1, i2, i3⟩ := ihb _ _ hbody
      obtain ⟨x, X, hX, hb3⟩ := endDraw_ok _ _ _ hE
      have hbb := beginDraw_bindings v.va g
      simp only [bindings, Prod.mk.injEq] at hbb hb3
      rw [VertexSlice.BeginDraw, hbb.2.2.1, hX] at i1
      rw [VertexSlice.BeginDraw, hbb.2.2.2] at i2
      cases i1
      obtain ⟨j1, j2, j3⟩ := ihr _ _ h2
      refine ⟨by rw [j1, hb3.2.2.1], by rw [j2, hb3.2.2.2, i2], fun hb => ?_⟩
      obtain ⟨j4, j5⟩ := j3 hb
      obtain ⟨_, i5⟩ := i3 hb
      rw [VertexSlice.BeginDraw, hbb.2.1] at i5
      exact ⟨by rw [j4, hb3.1], by rw [j5, hb3.2.1, i5]⟩

theorem SetLen_ok (g : GLState) (vs : VertexSlice) (n : Int)
    (hV : g.historyVAO ≠ []) (hB : g.historyVBO ≠ []) (hR : Resizable vs)
    (hfit : vs.Cap < n → GrowthFits vs n) :
    ∃ r, vs.SetLen g n = .ok r := by
  by_cases hn : n ≤ vs.Cap
  · obtain ⟨st, h⟩ := SetLen_reuse_any g vs n hV hB hn
    exact ⟨_, h⟩
  · obtain ⟨hW, hI, hS⟩ := hR
    obtain ⟨k, hk, _⟩ := size_of_supported _ hW.2.2
    have hs : vs.va.stride = 4 * (k : Int) := by rw [hW.2.1, hk]
    have hSk : vs.Stride = k := by simp [VertexSlice.Stride, hs, tdiv_four_mul]
    have hk0 : 0 < k := by rw [hSk] at hS; omega
    obtain ⟨h0, h1, h2⟩ := hI
    obtain ⟨a, ha⟩ := Int.eq_ofNat_of_zero_le h0
    obtain ⟨b, hb⟩ := Int.eq_ofNat_of_zero_le (le_trans h0 h1)
    have hcap0 : 0 ≤ vs.Cap := by rw [VertexSlice.Cap]; omega
    have hg := growCap_fits vs.Cap n vs.va.stride k hcap0 hs hk0 (hfit (not_le.mp hn))
    obtain ⟨offset, st, c, _, h⟩ := SetLen_fresh g vs n k a b hV hB hW hs hk0 ha hb
      (by omega) (by omega) (not_le.mp hn) (by rw [hg]; exact hfit (not_le.mp hn))
    exact ⟨_, h⟩

theorem nested_runs (b : Bool) (cs : List Call) (hN : Nested b cs) :
    (∀ vs n, Call.SetLen vs n ∈ cs → Resizable vs ∧ (vs.Cap < n → GrowthFits vs n)) →
    ∀ g : GLState, (b = true → g.historyVAO ≠ [] ∧ g.historyVBO ≠ []) →
      ∃ g1, runCalls g cs = .ok g1 := by
  induction hN with
  | nil b => intro _ g _; exact ⟨g, rfl⟩
  | resize vs len rest _ ih =>
    intro hok g hg
    obtain ⟨hV, hB⟩ := hg rfl
    obtain ⟨⟨vs2, g2⟩, hS⟩ := SetLen_ok g vs len hV hB
      (hok vs len (List.mem_cons_self _ _)).1 (hok vs len (List.mem_cons_self _ _)).2
    obtain ⟨k1, k2⟩ := SetLen_histories _ _ _ _ _ hS
    obtain ⟨g1, h1⟩ := ih (fun vs n hm => hok vs n (List.mem_cons_of_mem _ hm)) g2
      (fun _ => ⟨by rw [k1]; exact hV, by rw [k2]; exact hB⟩)
    exact ⟨g1, by simp only [runCalls, Call.run, hS, h1]⟩
  | scope b v w body rest hNb _ ihb ihr =>
    intro hok g hg
    have hbb := begin_bindings v.va g
    simp only [bindings, Prod.mk.injEq] at hbb
    obtain ⟨g2, hbody⟩ := ihb
      (fun vs n hm => hok vs n (List.mem_cons_of_mem _ (List.mem_append_left _ hm)))
      (v.Begin g)
      (fun _ => ⟨by rw [VertexSlice.Begin, hbb.2.2.1]; simp,
        by rw [VertexSlice.Begin, hbb.2.2.2]; simp⟩)
    obtain ⟨i1, i2, _⟩ := nested_bindings true body hNb _ _ hbody
    rw [VertexSlice.Begin, hbb.2.2.1] at i1
    rw [VertexSlice.Begin, hbb.2.2.2] at i2
    obtain ⟨st, hE⟩ := end_eq w.va g2 _ _ _ _ i1 i2
    obtain ⟨g1, hrest⟩ := ihr
      (fun vs n hm => hok vs n (List.mem_cons_of_mem _
        (List.mem_append_right _ (List.mem_cons_of_mem _ hm))))
      { g2 with
        vertexArrayBinding := g.vertexArrayBinding
        arrayBufferBinding := g.arrayBufferBinding
        historyVAO := g.historyVAO
        historyVBO := g.historyVBO
        statistic := st }
      (fun hb => hg hb)
    refine ⟨g1, ?_⟩
    simp only [runCalls, Call.run]
    exact runCalls_append_ok _ g2 _ _ _ hbody
      (by simp only [runCalls, Call.run, VertexSlice.End, hE]; exact hrest)
  | drawScope b v w body rest hNb _ ihb ihr =>
    intro hok g hg
    have hbb := beginDraw_bindings v.va g
    simp only [bindings, Prod.mk.injEq] at hbb
    obtain ⟨g2, hbody⟩ := ihb
      (fun vs n hm => hok vs n (List.mem_cons_of_mem _ (List.mem_append_left _ hm)))
      (v.BeginDraw g)
      (fun hb => ⟨by rw [VertexSlice.BeginDraw, hbb.2.2.1]; simp,
        by rw [VertexSlice.BeginDraw, hbb.2.2.2]; exact (hg hb).2⟩)
    obtain ⟨i1, i2, _⟩ := nested_bindings b body hNb _ _ hbody
    rw [VertexSlice.BeginDraw, hbb.2.2.1] at i1
    rw [VertexSlice.BeginDraw, hbb.2.2.2] at i2
    obtain ⟨st, hE⟩ := endDraw_eq w.va g2 _ _ i1
    obtain ⟨g1, hrest⟩ := ihr
      (fun vs n hm => hok vs n (List.mem_cons_of_mem _
        (List.mem_append_right _ (List.mem_cons_of_mem _ hm))))
      { g2 with
        vertexArrayBinding := g.vertexArrayBinding
        historyVAO := g.historyVAO
        statistic := st }
      (fun hb => ⟨(hg hb).1, by rw [i2]; exact (hg hb).2⟩)
    refine ⟨g1, ?_⟩
    simp only [runCalls, Call.run]
    exact runCalls_append_ok _ g2 _ _ _ hbody
      (by simp only [runCalls, Call.run, VertexSlice.EndDraw, hE]; exact hrest)

/-- Claim C10. Binding stack balance.  Each binding point (vertex-array binding, array-buffer
binding) is an active name plus a history stack.  For every well-nested sequence of `Begin`/`End`
and `BeginDraw`/`EndDraw` calls on any slices, with `SetLen` calls (which perform `End`, `grow`,
`Begin`) on any slices inside the `Begin`/`End` pairs: whenever the sequence runs to its end, the
active name and the history stack of both binding points are what they were before it; and it
runs to its end whenever the slices handed to `SetLen` are resizable and the stores `SetLen`
allocates fit a Go `int`. -/
theorem binding_stack_balance (g : GLState) (cs : List Call) (hN : Nested false cs) :
    (∀ g1, runCalls g cs = .ok g1 → bindings g1 = bindings g) ∧
    ((∀ vs n, Call.SetLen vs n ∈ cs → Resizable vs ∧ (vs.Cap < n → GrowthFits vs n)) →
      ∃ g1, runCalls g cs = .ok g1) := by
  constructor
  · intro g1 h
    obtain ⟨h1, h2, h3⟩ := nested_bindings false cs hN g g1 h
    obtain ⟨h4, h5⟩ := h3 rfl
    simp only [bindings, Prod.mk.injEq]
    exact ⟨h4, h5, h1, h2⟩
  · intro hok
    exact nested_runs false cs hN hok g (fun hb => by cases hb)

/-- The statement of `binding_stack_balance` at a `Begin`/`End` pair around a growing `SetLen`
and a `BeginDraw`/`EndDraw` pair, run from the context after `MakeVertexSlice`. -/
theorem binding_stack_balance_witness :
    Nested false [.Begin exampleSlice, .SetLen exampleSlice 5, .BeginDraw exampleSlice,
      .EndDraw exampleSlice, .End exampleSlice] ∧
    ∃ g1, runCalls exampleMade [.Begin exampleSlice, .SetLen exampleSlice 5,
        .BeginDraw exampleSlice, .EndDraw exampleSlice, .End exampleSlice] = .ok g1 ∧
      bindings g1 = bindings exampleMade := by
  have hN : Nested false [.Begin exampleSlice, .SetLen exampleSlice 5, .BeginDraw exampleSlice,
      .EndDraw exampleSlice, .End exampleSlice] :=
    Nested.scope false exampleSlice exampleSlice
      [.SetLen exampleSlice 5, .BeginDraw exampleSlice, .EndDraw exampleSlice] []
      (Nested.resize exampleSlice 5 _
        (Nested.drawScope true exampleSlice exampleSlice [] [] (Nested.nil true)
          (Nested.nil true)))
      (Nested.nil false)
  have h := binding_stack_balance exampleMade _ hN
  obtain ⟨g1, hg1⟩ := h.2 (by
    intro vs n hm
    simp only [List.mem_cons, List.mem_singleton, Call.SetLen.injEq, reduceCtorEq,
      false_or, or_false, List.not_mem_nil] at hm
    rw [hm.1, hm.2]
    decide)
  exact ⟨hN, g1, hg1, h.1 g1 hg1⟩

end buffer
